import Mathlib

/-!
Verification of the NETCONF transport/framing/codec core of libnetconf2
(src/io.c, src/session_p.h, src/config.h) against its natural-language
specification.

The development is a shallow embedding: byte streams are `List Char`,
machine counters are `Nat` reduced modulo `2 ^ 64` (or `2 ^ 32`) where the
C code uses fixed-width integers, and the blocking transport is replaced by
a byte list (for framing) or an explicit event list (for the read-timeout
accounting of `nc_read`).  Every definition is translated from the C source;
the few constants and collaborator values that live outside the provided
sources (`NC_TIMEOUT_STEP`, the two namespace URIs, and the error record
built by `nc_err(NC_ERR_MALFORMED_MSG)`) are modelled from the spec and say
so in their doc comments.
-/

/-! ## Basic protocol enumerations (session_p.h, netconf.h) -/

/-- NETCONF protocol versions, `NC_VERSION` in session_p.h. -/
inductive NC_VERSION where
  | v10
  | v11
deriving DecidableEq

/-- Session status. Modelled from the spec: the spec (§3) gives
status ∈ Starting, Running, Invalid, Closing; the enum itself is declared
outside the provided sources. -/
inductive NC_STATUS where
  | starting
  | running
  | invalid
  | closing
deriving DecidableEq

/-- Session termination reason. Modelled from the spec (§3):
term_reason ∈ None, Closed, Killed, Dropped, Timeout, BadHello, Other. -/
inductive NC_SESSION_TERM_REASON where
  | none
  | closed
  | killed
  | dropped
  | timeout
  | badHello
  | other
deriving DecidableEq

/-- Side of a session, `NC_SIDE` in session_p.h. -/
inductive NC_SIDE where
  | client
  | server
deriving DecidableEq

/-- The part of `struct nc_session` (session_p.h) that the I/O module
reads and writes: status, termination reason, side, negotiated version and
the client-side outbound message-id counter (`uint64_t msgid`). -/
structure Session where
  status : NC_STATUS
  term_reason : NC_SESSION_TERM_REASON
  side : NC_SIDE
  version : NC_VERSION
  msgid : Nat
deriving DecidableEq

/-- Partial-message read timeout in seconds, `NC_READ_TIMEOUT` in config.h. -/
def NC_READ_TIMEOUT : Nat := 30

/-- Sleep step in microseconds used by the would-block loops of io.c.
Modelled from the spec: `NC_TIMEOUT_STEP` is defined outside the provided
sources; the spec (§4.2, §6) fixes the sleep step at 1 ms = 1000 µs. -/
def NC_TIMEOUT_STEP : Nat := 1000

/-- The NETCONF 1.0 end-of-message sentinel, `NC_VERSION_10_ENDTAG`
in session_p.h (six bytes). -/
def NC_VERSION_10_ENDTAG : List Char := "]]>]]>".data

/-- Base NETCONF namespace. Modelled from the spec: `NC_NS_BASE` is defined
outside the provided sources; the spec (§4.4) gives the URI. -/
def NC_NS_BASE : List Char := "urn:ietf:params:xml:ns:netconf:base:1.0".data

/-- NETCONF notification namespace. Modelled from the spec: `NC_NS_NOTIF`
is defined outside the provided sources; the spec (§4.4) gives the URI. -/
def NC_NS_NOTIF : List Char := "urn:ietf:params:xml:ns:netconf:notification:1.0".data

/-! ## Decimal rendering (sprintf "%zu" / "%PRIu64" / "%u")

The C code renders chunk sizes and message ids with `sprintf`.  We model
the decimal rendering directly; the extra fuel argument makes the
definition structurally recursive and is always sufficient at use sites
(see `toDecAux_fuel`). -/

/-- One decimal digit as a character; `d` is always `< 10` at use sites. -/
def digitChar (d : Nat) : Char :=
  match d with
  | 0 => '0'
  | 1 => '1'
  | 2 => '2'
  | 3 => '3'
  | 4 => '4'
  | 5 => '5'
  | 6 => '6'
  | 7 => '7'
  | 8 => '8'
  | _ => '9'

/-- Fuel-driven decimal rendering accumulator. -/
def toDecAux : Nat → Nat → List Char → List Char
  | 0, _, acc => acc
  | f + 1, n, acc =>
    if n < 10 then digitChar n :: acc
    else toDecAux f (n / 10) (digitChar (n % 10) :: acc)

/-- Decimal rendering of a natural number, as `sprintf` with an unsigned
conversion produces it. -/
def toDecimal (n : Nat) : List Char := toDecAux (n + 1) n []

/-- The ten decimal digit characters. -/
def decDigits : List Char := "0123456789".data

/-! ## strtoul(chunk, NULL, 10): the chunk-size parser (io.c:311)

`strtoul` skips leading white space, accepts an optional sign, consumes
decimal digits and stops at the first non-digit; on overflow it returns
`ULONG_MAX` (2^64 - 1 on the target), and a leading minus negates the
converted value as an unsigned number. -/

/-- Character class of `isspace` in the C locale. -/
def isSpaceC (c : Char) : Bool :=
  c = ' ' || c = '\t' || c = '\n' || c = '\x0b' || c = '\x0c' || c = '\r'

/-- Decimal digit test, `'0' <= c <= '9'`. -/
def isDigitC (c : Char) : Bool := '0' ≤ c && c ≤ '9'

/-- Value of the digit prefix of a character list, base 10, accumulator
style; stops at the first non-digit. -/
def digitsVal : List Char → Nat → Nat
  | [], acc => acc
  | c :: rest, acc =>
    if isDigitC c then digitsVal rest (acc * 10 + (c.toNat - 48)) else acc

/-- Model of `strtoul(s, NULL, 10)` on a 64-bit target. -/
def strtoul10 (s : List Char) : Nat :=
  match s.dropWhile isSpaceC with
  | [] => 0
  | c :: s2 =>
    if c = '-' then (2 ^ 64 - min (digitsVal s2 0) (2 ^ 64 - 1)) % 2 ^ 64
    else if c = '+' then min (digitsVal s2 0) (2 ^ 64 - 1)
    else min (digitsVal (c :: s2) 0) (2 ^ 64 - 1)

/-! ## The framed writer (io.c:561-794)

`nc_write` itself always succeeds in this model (write failures are
injected separately where a claim needs them, see `WriteOutcome`), so the
writer pipeline is a pure function from the staged bytes to the bytes put
on the wire. -/

/-- Staging buffer size, `WRITE_BUFSIZE` = 2 * `BUFFERSIZE` (io.c:35,561). -/
def BUFFERSIZE : Nat := 512

/-- Write staging buffer size (io.c:561). -/
def WRITE_BUFSIZE : Nat := 2 * BUFFERSIZE

/-- NETCONF 1.1 chunk header `\n#<len>\n` produced by
`sprintf(chunksize, "\n#%zu\n", count)` (io.c:667). -/
def chunkHeader (n : Nat) : List Char :=
  '\n' :: '#' :: (toDecimal n ++ ['\n'])

/-- Bytes put on the wire by `nc_write_starttag_and_msg` (io.c:660-681):
for a 1.1 session the chunk header precedes the payload, for 1.0 the
payload goes out as is. -/
def nc_write_starttag_and_msg (v : NC_VERSION) (buf : List Char) : List Char :=
  match v with
  | .v11 => chunkHeader buf.length ++ buf
  | .v10 => buf

/-- Bytes put on the wire by `nc_write_endtag` (io.c:683-695). -/
def nc_write_endtag (v : NC_VERSION) : List Char :=
  match v with
  | .v11 => "\n##\n".data
  | .v10 => "]]>]]>".data

/-- `nc_write_clb_flush` (io.c:697-709): flush the staging buffer when
non-empty.  Returns the new staging buffer and the bytes written. -/
def nc_write_clb_flush (v : NC_VERSION) (st : List Char) : List Char × List Char :=
  if st.length ≠ 0 then ([], nc_write_starttag_and_msg v st) else (st, [])

/-- XML content escaping of one character, the `switch` of io.c:763-784. -/
def escapeChar (c : Char) : List Char :=
  if c = '&' then "&amp;".data
  else if c = '<' then "&lt;".data
  else if c = '>' then "&gt;".data
  else [c]

/-- Content escaping of a byte sequence. -/
def escapeList : List Char → List Char
  | [] => []
  | c :: rest => escapeChar c ++ escapeList rest

/-- The per-character content loop of `nc_write_clb` (io.c:754-785): before
each character, flush if fewer than 5 bytes of the staging buffer would be
left (`warg->len + 5 >= WRITE_BUFSIZE`); then stage the escaped character.
Returns the final staging buffer and the bytes written. -/
def contentLoop (v : NC_VERSION) : List Char → List Char → List Char × List Char
  | [], st => (st, [])
  | c :: rest, st =>
    let p := if st.length + 5 ≥ WRITE_BUFSIZE then nc_write_clb_flush v st else (st, [])
    let q := contentLoop v rest (p.1 ++ escapeChar c)
    (q.1, p.2 ++ q.2)

/-- `nc_write_clb` (io.c:711-794).  `buf = none` is the C `NULL` buffer:
flush and write the end tag.  `xmlcontent` selects content escaping.
Returns the new staging buffer and the bytes written. -/
def nc_write_clb (v : NC_VERSION) (buf : Option (List Char)) (xmlcontent : Bool)
    (st : List Char) : List Char × List Char :=
  match buf with
  | none =>
    let p := nc_write_clb_flush v st
    (p.1, p.2 ++ nc_write_endtag v)
  | some b =>
    let p := if st.length ≠ 0 ∧ st.length + b.length > WRITE_BUFSIZE then
        nc_write_clb_flush v st
      else (st, [])
    if ¬ xmlcontent ∧ b.length > WRITE_BUFSIZE then
      (p.1, p.2 ++ nc_write_starttag_and_msg v b)
    else if xmlcontent then
      let q := contentLoop v b p.1
      (q.1, p.2 ++ q.2)
    else
      (p.1 ++ b, p.2)

/-- One invocation of `nc_write_clb` as it appears in `nc_write_msg` and
`nc_write_error`: a raw (markup) buffer, a content buffer, or the final
`NULL` flush-and-endtag call. -/
inductive ClbCall where
  | raw (b : List Char)
  | content (b : List Char)
  | close
deriving DecidableEq

/-- Run one `ClbCall` against a staging buffer. -/
def applyCall (v : NC_VERSION) : ClbCall → List Char → List Char × List Char
  | .raw b, st => nc_write_clb v (some b) false st
  | .content b, st => nc_write_clb v (some b) true st
  | .close, st => nc_write_clb v none false st

/-- Run a sequence of `ClbCall`s, concatenating the written bytes. -/
def runCalls (v : NC_VERSION) : List ClbCall → List Char → List Char × List Char
  | [], st => (st, [])
  | c :: cs, st =>
    let p := applyCall v c st
    let q := runCalls v cs p.1
    (q.1, p.2 ++ q.2)

/-- Logical payload of a call: the bytes it appends to the message body
(after escaping, before framing). -/
def payloadOf : ClbCall → List Char
  | .raw b => b
  | .content b => escapeList b
  | .close => []

/-- Concatenated payload of a call sequence. -/
def payloadConcat : List ClbCall → List Char
  | [] => []
  | c :: cs => payloadOf c ++ payloadConcat cs

/-- The whole framed output of one message written through `nc_write_clb`:
a single buffer submission followed by the final flush-and-endtag call,
exactly the shape of the round-trip claim. -/
def wireOf (v : NC_VERSION) (body : List Char) : List Char :=
  (runCalls v [ClbCall.raw body, ClbCall.close] []).2

/-- One NETCONF 1.1 chunk as `nc_write_starttag_and_msg` frames a
submitted buffer (io.c:660-681): the `\n#<len>\n` header followed by the
buffer bytes. -/
def frameChunk (b : List Char) : List Char :=
  chunkHeader b.length ++ b

/-- A NETCONF 1.1 wire consisting of the chunks of `parts` followed by
the end-of-chunks terminator written by `nc_write_endtag` (io.c:686-691). -/
def chunkedWire (parts : List (List Char)) : List Char :=
  (parts.map frameChunk).flatten ++ "\n##\n".data

/-! ## The framed reader (io.c:161-337) -/

/-- Accumulating loop of `nc_read_until` (io.c:191-258): read one byte at a
time, stop as soon as the bytes read so far end with `endtag` (the
`strncmp` against the last `len` bytes, io.c:241-246).  All calls made by
`nc_read_msg` pass `limit = 0`, so the limit check never fires and is not
modelled.  `none` is a failed `nc_read` (stream exhausted / fatal). -/
def readUntilGo (endtag : List Char) : List Char → List Char → Option (List Char × List Char)
  | _, [] => none
  | acc, c :: rest =>
    if endtag <:+ acc ++ [c] then some (acc ++ [c], rest)
    else readUntilGo endtag (acc ++ [c]) rest

/-- `nc_read_until(session, endtag, 0, ..)` on a byte-list stream: returns
the bytes up to and including the first occurrence of `endtag`, and the
rest of the stream. -/
def nc_read_until (endtag stream : List Char) : Option (List Char × List Char) :=
  readUntilGo endtag [] stream

/-- `nc_read_chunk` (io.c:161-189): read exactly `n` bytes.  Only called
with `n > 0`. -/
def readExact (n : Nat) (s : List Char) : Option (List Char × List Char) :=
  if n ≤ s.length then some (s.take n, s.drop n) else none

/-- Result of the frame-assembly part of `nc_read_msg`:
a complete message body (and remaining stream), a framing/message fault
that jumps to `malformed_msg`, or a read error that jumps to `error`. -/
inductive FrameResult where
  | ok (body rest : List Char)
  | malformed
  | err
deriving DecidableEq

/-- The NETCONF 1.1 chunk loop of `nc_read_msg` (io.c:289-334).  `msg` is
the accumulated body; the C `msg == NULL` state is `[]` (every completed
chunk appends at least one byte, so the two coincide).  The fuel only
bounds the number of loop iterations; each iteration consumes at least one
byte of the stream, so `stream.length + 1` is always enough. -/
def readChunks : Nat → List Char → List Char → FrameResult
  | 0, _, _ => .err
  | fuel + 1, msg, stream =>
    match nc_read_until ['\n', '#'] stream with
    | none => .err
    | some p =>
      match nc_read_until ['\n'] p.2 with
      | none => .err
      | some q =>
        if q.1 = ['#', '\n'] then
          if msg = [] then .malformed else .ok msg q.2
        else if strtoul10 q.1 = 0 then .malformed
        else
          match readExact (strtoul10 q.1) q.2 with
          | none => .err
          | some r => readChunks fuel (msg ++ r.1) r.2

/-- The read-and-assemble phase of `nc_read_msg` (io.c:279-337): the 1.0
sentinel path with the end tag cut off (io.c:287), or the 1.1 chunk
loop. -/
def readPhase (v : NC_VERSION) (stream : List Char) : FrameResult :=
  match v with
  | .v10 =>
    match nc_read_until NC_VERSION_10_ENDTAG stream with
    | some p => .ok (p.1.take (p.1.length - 6)) p.2
    | none => .err
  | .v11 => readChunks (stream.length + 1) [] stream

/-! ## The message classifier (io.c:340-373) -/

/-- The root element of the XML tree built by `lyxml_parse_mem`, as far as
the classifier looks at it: optional namespace value and element name. -/
structure XmlRoot where
  ns : Option (List Char)
  name : List Char
deriving DecidableEq

/-- Message types surfaced by `nc_read_msg`; every failure path returns
`NC_MSG_ERROR`. -/
inductive NC_MSG_TYPE where
  | error
  | hello
  | rpc
  | reply
  | notif
deriving DecidableEq

/-- Classification of a parse result (io.c:341-373): `none` input is a
failed `lyxml_parse_mem`; a root without namespace, or any
namespace/name combination outside the table, yields `none` =
`malformed_msg`. -/
def classifyParsed : Option XmlRoot → Option NC_MSG_TYPE
  | Option.none => Option.none
  | Option.some root =>
    match root.ns with
    | Option.none => Option.none
    | Option.some nsv =>
      if nsv = NC_NS_BASE then
        if root.name = "rpc".data then some .rpc
        else if root.name = "rpc-reply".data then some .reply
        else if root.name = "hello".data then some .hello
        else Option.none
      else if nsv = NC_NS_NOTIF then
        if root.name = "notification".data then some .notif
        else Option.none
      else Option.none

/-! ## The rpc-error serializer (io.c:802-957) and nc_write_msg (io.c:960-1138) -/

/-- Error type enumeration, the `err->type` switch of io.c:811-827. -/
inductive NC_ERR_TYPE where
  | tran
  | rpc
  | prot
  | app
deriving DecidableEq

/-- Error tag enumeration, the `err->tag` switch of io.c:831-892. -/
inductive NC_ERR where
  | inUse
  | invalidValue
  | tooBig
  | missingAttr
  | badAttr
  | unknownAttr
  | missingElem
  | badElem
  | unknownElem
  | unknownNs
  | accessDenied
  | lockDenied
  | resDenied
  | rollbackFailed
  | dataExists
  | dataMissing
  | opNotSupported
  | opFailed
  | malformedMsg
deriving DecidableEq

/-- String written for an error type (io.c:811-827). -/
def errTypeStr : NC_ERR_TYPE → List Char
  | .tran => "transport".data
  | .rpc => "rpc".data
  | .prot => "protocol".data
  | .app => "application".data

/-- String written for an error tag (io.c:831-892). -/
def errTagStr : NC_ERR → List Char
  | .inUse => "in-use".data
  | .invalidValue => "invalid-value".data
  | .tooBig => "too-big".data
  | .missingAttr => "missing-attribute".data
  | .badAttr => "bad-attribute".data
  | .unknownAttr => "unknown-attribute".data
  | .missingElem => "missing-element".data
  | .badElem => "bad-element".data
  | .unknownElem => "unknown-element".data
  | .unknownNs => "unknown-namespace".data
  | .accessDenied => "access-denied".data
  | .lockDenied => "lock-denied".data
  | .resDenied => "resource-denied".data
  | .rollbackFailed => "rollback-failed".data
  | .dataExists => "data-exists".data
  | .dataMissing => "data-missing".data
  | .opNotSupported => "operation-not-supported".data
  | .opFailed => "operation-failed".data
  | .malformedMsg => "malformed-message".data

/-- `struct nc_server_error` as `nc_write_error` reads it: type, tag, the
optional textual fields, the session id (`> -1` means present), the bad
attribute/element/namespace lists and the free-form `error-info` fragments
(the bytes `lyxml_print_clb` would emit for them). -/
structure NCServerError where
  etype : NC_ERR_TYPE
  tag : NC_ERR
  apptag : Option (List Char)
  path : Option (List Char)
  message : Option (List Char)
  message_lang : Option (List Char)
  sid : Int
  attr : List (List Char)
  elem : List (List Char)
  ns : List (List Char)
  other : List (List Char)
deriving DecidableEq

/-- Calls emitted for each `bad-attribute` entry (io.c:931-935). -/
def badListCalls (opening closing : List Char) : List (List Char) → List ClbCall
  | [] => []
  | x :: xs => .raw opening :: .content x :: .raw closing :: badListCalls opening closing xs

/-- The `error-info` block of `nc_write_error` (io.c:921-954). -/
def errInfoCalls (e : NCServerError) : List ClbCall :=
  if e.sid > -1 ∨ e.attr ≠ [] ∨ e.elem ≠ [] ∨ e.ns ≠ [] ∨ e.other ≠ [] then
    [ClbCall.raw "<error-info>".data] ++
    (if e.sid > -1 then
      [ClbCall.raw "<session-id>".data,
       ClbCall.raw (toDecimal ((e.sid % (2 ^ 32 : Int)).toNat)),
       ClbCall.raw "</session-id>".data]
     else []) ++
    badListCalls "<bad-attribute>".data "</bad-attribute>".data e.attr ++
    badListCalls "<bad-element>".data "</bad-element>".data e.elem ++
    badListCalls "<bad-namespace>".data "</bad-namespace>".data e.ns ++
    (e.other.map ClbCall.raw) ++
    [ClbCall.raw "</error-info>".data]
  else []

/-- `nc_write_error` (io.c:802-957) as the sequence of `nc_write_clb`
calls it makes. -/
def nc_write_error (e : NCServerError) : List ClbCall :=
  [ClbCall.raw "<rpc-error>".data,
   ClbCall.raw "<error-type>".data, ClbCall.raw (errTypeStr e.etype),
   ClbCall.raw "</error-type>".data,
   ClbCall.raw "<error-tag>".data, ClbCall.raw (errTagStr e.tag),
   ClbCall.raw "</error-tag>".data,
   ClbCall.raw "<error-severity>error</error-severity>".data] ++
  (match e.apptag with
   | Option.some a => [ClbCall.raw "<error-app-tag>".data, ClbCall.content a,
       ClbCall.raw "</error-app-tag>".data]
   | Option.none => []) ++
  (match e.path with
   | Option.some p => [ClbCall.raw "<error-path>".data, ClbCall.content p,
       ClbCall.raw "</error-path>".data]
   | Option.none => []) ++
  (match e.message with
   | Option.some m =>
     [ClbCall.raw "<error-message".data] ++
     (match e.message_lang with
      | Option.some lg => [ClbCall.raw " xml:lang=\"".data, ClbCall.content lg,
          ClbCall.raw "\"".data]
      | Option.none => []) ++
     [ClbCall.raw ">".data, ClbCall.content m, ClbCall.raw "</error-message>".data]
   | Option.none => []) ++
  errInfoCalls e ++
  [ClbCall.raw "</rpc-error>".data]

/-- What `nc_write_msg` sees of the parsed `<rpc>` element in the REPLY
case: the namespace prefix if the root has one, and the bytes
`lyxml_print_clb(.., LYXML_PRINT_ATTRS)` emits for its attributes. -/
structure RpcElem where
  nsPref : Option (List Char)
  attrBytes : List Char
deriving DecidableEq

/-- `struct nc_server_reply` as `nc_write_msg` consumes it: `<ok/>`, a
data reply (the bytes `lyd_print_clb` emits for it), or a list of
errors. -/
inductive ServerReply where
  | ok
  | data (bytes : List Char)
  | error (errs : List NCServerError)
deriving DecidableEq

/-- The variadic payload of `nc_write_msg`, one constructor per
`NC_MSG_TYPE` case it accepts (io.c:989-1126).  Serialized subtree bytes
(`lyd_print_clb` / `lyxml_print_clb` output) stand in for the trees. -/
inductive NCWriteMsg where
  | rpc (content : List Char) (attrs : Option (List Char))
  | reply (relem : Option RpcElem) (rep : ServerReply)
  | notif (eventtime : List Char) (tree : List Char)
  | hello (caps : List (List Char)) (sid : Option Nat)
deriving DecidableEq

/-- Per-capability calls of the hello case (io.c:1104-1108); the
capability text goes through content escaping. -/
def capCalls : List (List Char) → List ClbCall
  | [] => []
  | c :: cs => .raw "<capability>".data :: .content c :: .raw "</capability>".data :: capCalls cs

/-- The calls of the `NC_MSG_RPC` case (io.c:990-1008): the asprintf'd
open tag with `message-id = msgid + 1` (64-bit arithmetic), the printed
content, and `</rpc>`. -/
def rpcCalls (msgid : Nat) (content : List Char) (attrs : Option (List Char)) : List ClbCall :=
  [ClbCall.raw ("<rpc xmlns=\"".data ++ NC_NS_BASE ++ "\" message-id=\"".data ++
      toDecimal ((msgid + 1) % 2 ^ 64) ++ "\"".data ++
      (match attrs with | Option.some a => a | Option.none => []) ++ ">".data),
   ClbCall.raw content,
   ClbCall.raw "</rpc>".data]

/-- The calls of the `NC_MSG_REPLY` case (io.c:1010-1075).  When the
incoming rpc element is absent (malformed-message reply) the code writes
`"<rpc-reply"` and then `"xmlns=\"..\">"` with no separating space
(io.c:1020,1029) - reproduced literally here. -/
def replyCalls (relem : Option RpcElem) (rep : ServerReply) : List ClbCall :=
  (match relem with
   | Option.some r =>
     (match r.nsPref with
      | Option.some p => [ClbCall.raw "<".data, ClbCall.raw p, ClbCall.raw ":rpc-reply".data]
      | Option.none => [ClbCall.raw "<rpc-reply".data]) ++
     [ClbCall.raw r.attrBytes, ClbCall.raw ">".data]
   | Option.none =>
     [ClbCall.raw "<rpc-reply".data,
      ClbCall.raw ("xmlns=\"".data ++ NC_NS_BASE ++ "\">".data)]) ++
  (match rep with
   | .ok => [ClbCall.raw "<ok/>".data]
   | .data bytes => [ClbCall.raw bytes]
   | .error errs => (errs.map nc_write_error).flatten) ++
  (match relem with
   | Option.some r =>
     (match r.nsPref with
      | Option.some p => [ClbCall.raw "</".data, ClbCall.raw p, ClbCall.raw ":rpc-reply>".data]
      | Option.none => [ClbCall.raw "</rpc-reply>".data])
   | Option.none => [ClbCall.raw "</rpc-reply>".data])

/-- The calls of the `NC_MSG_NOTIF` case (io.c:1077-1086).  The closing
tag is written with an explicit count of 12 bytes (io.c:1085), so only the
first 12 characters of `"</notification>"` reach the wire. -/
def notifCalls (eventtime tree : List Char) : List ClbCall :=
  [ClbCall.raw ("<notification xmlns=\"".data ++ NC_NS_NOTIF ++ "\">".data),
   ClbCall.raw "<eventTime>".data,
   ClbCall.raw eventtime,
   ClbCall.raw "</eventTime>".data,
   ClbCall.raw tree,
   ClbCall.raw ("</notification>".data.take 12)]

/-- The calls of the `NC_MSG_HELLO` case (io.c:1096-1121); the session id
is printed with `%u` of a `uint32_t`. -/
def helloCalls (caps : List (List Char)) (sid : Option Nat) : List ClbCall :=
  ClbCall.raw ("<hello xmlns=\"".data ++ NC_NS_BASE ++ "\"><capabilities>".data) ::
  capCalls caps ++
  [ClbCall.raw (match sid with
    | Option.some s => "</capabilities><session-id>".data ++ toDecimal (s % 2 ^ 32) ++
        "</session-id></hello>".data
    | Option.none => "</capabilities></hello>".data)]

/-- The call sequence of one `nc_write_msg` invocation and the updated
session, or `none` where the C function bails out with -1 before writing
anything: there is no such bail-out for rpc/reply/notif, and the hello
case refuses any session whose version is not `NC_VERSION_10`
(io.c:1089-1092). -/
def msgCalls (sess : Session) (m : NCWriteMsg) : Option (List ClbCall × Session) :=
  match m with
  | .rpc content attrs =>
    some (rpcCalls sess.msgid content attrs, { sess with msgid := (sess.msgid + 1) % 2 ^ 64 })
  | .reply relem rep => some (replyCalls relem rep, sess)
  | .notif eventtime tree => some (notifCalls eventtime tree, sess)
  | .hello caps sid =>
    if sess.version ≠ .v10 then none else some (helloCalls caps sid, sess)

/-- `nc_write_msg` (io.c:960-1138) in the model where every `nc_write`
succeeds: checks the session status (io.c:979), runs the per-type calls
followed by the final flush-and-endtag call (io.c:1129), and returns the
updated session and the bytes put on the wire; `none` is a -1 return. -/
def nc_write_msg (sess : Session) (m : NCWriteMsg) : Option (Session × List Char) :=
  if sess.status = .running ∨ sess.status = .starting then
    match msgCalls sess m with
    | Option.none => Option.none
    | Option.some p =>
      some (p.2, (runCalls sess.version (p.1 ++ [ClbCall.close]) []).2)
  else none

/-! ## nc_read_msg with the malformed-message responder (io.c:260-398) -/

/-- The error record built by `nc_err(NC_ERR_MALFORMED_MSG)`.
Modelled from the spec: `nc_err` lives outside the provided sources; the
spec (§4.7, §8 scenario 3) prescribes an `rpc-error` with type `rpc`, tag
`malformed-message`, severity `error` and nothing else, so the optional
fields are absent and the session id is the absent value -1. -/
def ncErrMalformed : NCServerError :=
  { etype := .rpc, tag := .malformedMsg, apptag := Option.none, path := Option.none,
    message := Option.none, message_lang := Option.none, sid := -1,
    attr := [], elem := [], ns := [], other := [] }

/-- Outcome of the `nc_write_msg` call that sends the malformed-message
reply (io.c:381).  The model of `nc_write_msg` above always succeeds, so
the failure modes of the underlying `nc_write` are injected here: `ok` is
a successful send, `failKeep` a -1 return that left the session fields
alone (e.g. a plain write error on an FD transport), `failInvalid t` a -1
return where `nc_write` itself already invalidated the session with
termination reason `t` (e.g. the pre-write connectivity check marking it
Dropped). -/
inductive WriteOutcome where
  | ok
  | failKeep
  | failInvalid (t : NC_SESSION_TERM_REASON)
deriving DecidableEq

/-- The `malformed_msg` label of `nc_read_msg` (io.c:375-389): on a
server-side 1.1 session, send the malformed-message reply; if that send
returned -1 and the session is not already Invalid, mark it
Invalid/Other.  Returns the session and the bytes written. -/
def malformedHandler (w : WriteOutcome) (sess : Session) : Session × List Char :=
  if sess.side = .server ∧ sess.version = .v11 then
    match w with
    | .ok =>
      match nc_write_msg sess (.reply Option.none (.error [ncErrMalformed])) with
      | Option.some p => (p.1, p.2)
      | Option.none => (sess, [])
    | .failKeep =>
      if sess.status ≠ .invalid then
        ({ sess with status := .invalid, term_reason := .other }, [])
      else (sess, [])
    | .failInvalid t =>
      let s1 := { sess with status := NC_STATUS.invalid, term_reason := t }
      if s1.status ≠ .invalid then
        ({ s1 with status := .invalid, term_reason := .other }, [])
      else (s1, [])
  else (sess, [])

/-- `nc_read_msg` (io.c:260-398) over a byte-list stream.  `parse` is the
collaborating XML parser (`lyxml_parse_mem`); `w` the outcome of the
malformed-message send, if one happens.  Returns the `NC_MSG_TYPE`, the
surfaced `*data` (always `none` on `NC_MSG_ERROR`, io.c:394-395), the
session afterwards, and the bytes written. -/
def nc_read_msg (parse : List Char → Option XmlRoot) (w : WriteOutcome)
    (sess : Session) (stream : List Char) :
    NC_MSG_TYPE × Option XmlRoot × Session × List Char :=
  if sess.status = .running ∨ sess.status = .starting then
    match readPhase sess.version stream with
    | .err => (.error, Option.none, sess, [])
    | .malformed =>
      let p := malformedHandler w sess
      (.error, Option.none, p.1, p.2)
    | .ok body _ =>
      match classifyParsed (parse body) with
      | Option.some t => (t, parse body, sess, [])
      | Option.none =>
        let p := malformedHandler w sess
        (.error, Option.none, p.1, p.2)
  else (.error, Option.none, sess, [])

/-! ## nc_read and the per-message timeout budget (io.c:37-159)

The transport is replaced by a list of events: one event per iteration of
the `do`-`while` loop - some bytes arrived, the substrate signalled
would-block (`r == 0`), or a fatal substrate condition.  The state mirrors
the C locals `readd`, `sleep_count`, the shared `*read_timeout`, and the
session status/termination fields; `slept` additionally accumulates the
total microseconds spent in `usleep(NC_TIMEOUT_STEP)` calls. -/

/-- One underlying read attempt of `nc_read`. -/
inductive ReadEv where
  | bytes (n : Nat)
  | wouldBlock
  | fatalOther
  | fatalDropped
deriving DecidableEq

/-- State of the `nc_read` loop. -/
structure RState where
  readd : Nat
  sleep_count : Nat
  read_timeout : Nat
  slept : Nat
  status : NC_STATUS
  term_reason : NC_SESSION_TERM_REASON
deriving DecidableEq

/-- Result of running the `nc_read` loop on an event list: the count was
satisfied (`done`), the loop failed returning -1 (`failed`), or the event
list ran out with the loop still waiting (`moreNeeded`). -/
inductive RRes where
  | done (st : RState)
  | failed (st : RState)
  | moreNeeded (st : RState)
deriving DecidableEq

/-- The `do`-`while` loop of `nc_read` (io.c:55-155).  A `wouldBlock`
event is the `r == 0` path: sleep `NC_TIMEOUT_STEP` µs, decrement the
budget once `1000000 / NC_TIMEOUT_STEP` sleeps have accumulated
(io.c:137-151, with the `uint16_t` wrap of `--(*read_timeout)` on 0), and
fail Invalid/Other when the budget is exhausted. -/
def ncReadGo (count : Nat) : List ReadEv → RState → RRes
  | [], st => .moreNeeded st
  | e :: evs, st =>
    match e with
    | .bytes n =>
      let st1 := { st with readd := st.readd + n }
      if st1.readd < count then ncReadGo count evs st1 else .done st1
    | .fatalOther =>
      .failed { st with status := .invalid, term_reason := .other }
    | .fatalDropped =>
      .failed { st with status := .invalid, term_reason := .dropped }
    | .wouldBlock =>
      let sc := st.sleep_count + 1
      let t := if 1000000 / NC_TIMEOUT_STEP = sc then
          (if st.read_timeout = 0 then 65535 else st.read_timeout - 1)
        else st.read_timeout
      let st1 := { st with
        sleep_count := if 1000000 / NC_TIMEOUT_STEP = sc then 0 else sc,
        read_timeout := t,
        slept := st.slept + NC_TIMEOUT_STEP }
      if t = 0 then .failed { st1 with status := .invalid, term_reason := .other }
      else if st1.readd < count then ncReadGo count evs st1 else .done st1

/-- `nc_read` (io.c:37-159): the status guard (io.c:47-49), the zero-count
shortcut (io.c:51-53), then the loop. -/
def nc_read (count : Nat) (evs : List ReadEv) (st : RState) : RRes :=
  if st.status = .running ∨ st.status = .starting then
    if count = 0 then .done st
    else ncReadGo count evs st
  else .failed st

/-! ## The flush condition as the spec words it (for comparison with C7)

The spec says the staging buffer is flushed when it cannot fit the next 5
bytes, i.e. when fewer than 5 free bytes remain; the code flushes already
when exactly 5 free bytes remain (`warg->len + 5 >= WRITE_BUFSIZE`,
io.c:755). -/

/-- The content loop as the specification describes it: flush only when
fewer than 5 free bytes remain (`st.length + 5 > WRITE_BUFSIZE`).
Modelled from the spec for comparison with `contentLoop`; this is a
specification-side mirror, not source code. -/
def contentLoopSpec (v : NC_VERSION) : List Char → List Char → List Char × List Char
  | [], st => (st, [])
  | c :: rest, st =>
    let p := if st.length + 5 > WRITE_BUFSIZE then nc_write_clb_flush v st else (st, [])
    let q := contentLoopSpec v rest (p.1 ++ escapeChar c)
    (q.1, p.2 ++ q.2)

/-! ## Remaining definitions used by the claim statements -/

/-- Concatenated payload of the per-capability calls of a hello. -/
def capsPayload : List (List Char) → List Char
  | [] => []
  | c :: cs => "<capability>".data ++ escapeList c ++ "</capability>".data ++ capsPayload cs

/-- The classification table as the specification states it (§4.4).
Modelled from the spec for comparison with `classifyParsed`. -/
def classifyTable (root : Option XmlRoot) : Option NC_MSG_TYPE :=
  match root with
  | Option.none => Option.none
  | Option.some r =>
    if r.ns = some NC_NS_BASE ∧ r.name = "hello".data then some .hello
    else if r.ns = some NC_NS_BASE ∧ r.name = "rpc".data then some .rpc
    else if r.ns = some NC_NS_BASE ∧ r.name = "rpc-reply".data then some .reply
    else if r.ns = some NC_NS_NOTIF ∧ r.name = "notification".data then some .notif
    else Option.none

/-- The exact bytes the model sends for the malformed-message reply on a
1.1 session: one chunk of 199 body bytes and the terminator.  The missing
space between `<rpc-reply` and `xmlns` reproduces io.c:1020/1029
verbatim. -/
def malformedReplyWire : List Char :=
  ("\n#199\n<rpc-replyxmlns=\"urn:ietf:params:xml:ns:netconf:base:1.0\"><rpc-error><error-type>rpc</error-type><error-tag>malformed-message</error-tag><error-severity>error</error-severity></rpc-error></rpc-reply>\n##\n").data

/-! ### Lemmas about decimal rendering -/

theorem digitChar_mem_decDigits (d : Nat) : digitChar d ∈ decDigits := by
  match d with
  | 0 => decide
  | 1 => decide
  | 2 => decide
  | 3 => decide
  | 4 => decide
  | 5 => decide
  | 6 => decide
  | 7 => decide
  | 8 => decide
  | d + 9 =>
    show '9' ∈ decDigits
    decide

theorem toDecAux_fuel (f1 : Nat) : ∀ (f2 n : Nat) (acc : List Char),
    n < f1 → n < f2 → toDecAux f1 n acc = toDecAux f2 n acc := by
  induction f1 with
  | zero => omega
  | succ f ih =>
    intro f2 n acc h1 h2
    obtain ⟨g, rfl⟩ : ∃ g, f2 = g + 1 := ⟨f2 - 1, by omega⟩
    by_cases h10 : n < 10
    · simp [toDecAux, h10]
    · simp only [toDecAux, h10, if_false]
      have hlt : n / 10 < n := Nat.div_lt_self (by omega) (by omega)
      exact ih g (n / 10) _ (by omega) (by omega)

theorem toDecAux_mem (fuel : Nat) : ∀ (n : Nat) (acc : List Char), n < fuel →
    ∀ c ∈ toDecAux fuel n acc, c ∈ acc ∨ c ∈ decDigits := by
  induction fuel with
  | zero => omega
  | succ f ih =>
    intro n acc h c hc
    by_cases h10 : n < 10
    · simp only [toDecAux, h10, if_true] at hc
      rcases List.mem_cons.mp hc with h1 | h1
      · exact Or.inr (h1 ▸ digitChar_mem_decDigits n)
      · exact Or.inl h1
    · simp only [toDecAux, h10, if_false] at hc
      have hlt : n / 10 < n := Nat.div_lt_self (by omega) (by omega)
      rcases ih (n / 10) (digitChar (n % 10) :: acc) (by omega) c hc with h1 | h1
      · rcases List.mem_cons.mp h1 with h2 | h2
        · exact Or.inr (h2 ▸ digitChar_mem_decDigits (n % 10))
        · exact Or.inl h2
      · exact Or.inr h1

theorem toDecAux_length (fuel : Nat) : ∀ (n : Nat) (acc : List Char), n < fuel →
    acc.length < (toDecAux fuel n acc).length := by
  induction fuel with
  | zero => omega
  | succ f ih =>
    intro n acc h
    by_cases h10 : n < 10
    · simp [toDecAux, h10]
    · simp only [toDecAux, h10, if_false]
      have hlt : n / 10 < n := Nat.div_lt_self (by omega) (by omega)
      have := ih (n / 10) (digitChar (n % 10) :: acc) (by omega)
      simp only [List.length_cons] at this
      omega

theorem toDecimal_mem (n : Nat) : ∀ c ∈ toDecimal n, c ∈ decDigits := by
  intro c hc
  rcases toDecAux_mem (n + 1) n [] (by omega) c hc with h | h
  · simp at h
  · exact h

theorem toDecimal_ne_nil (n : Nat) : toDecimal n ≠ [] := by
  have := toDecAux_length (n + 1) n [] (by omega)
  intro hcon
  rw [show toDecAux (n + 1) n [] = toDecimal n from rfl, hcon] at this
  simp at this

theorem toDecimal_not_newline (n : Nat) : '\n' ∉ toDecimal n := by
  intro h
  have := toDecimal_mem n '\n' h
  simp [decDigits] at this

/-- Appending to the accumulator commutes with rendering. -/
theorem toDecAux_append (fuel : Nat) : ∀ (n : Nat) (acc : List Char), n < fuel →
    toDecAux fuel n acc = toDecAux fuel n [] ++ acc := by
  induction fuel with
  | zero => omega
  | succ f ih =>
    intro n acc h
    by_cases h10 : n < 10
    · simp [toDecAux, h10]
    · simp only [toDecAux, h10, if_false]
      have hlt : n / 10 < n := Nat.div_lt_self (by omega) (by omega)
      rw [ih (n / 10) (digitChar (n % 10) :: acc) (by omega),
        ih (n / 10) [digitChar (n % 10)] (by omega), List.append_assoc]
      rfl

/-- Value of a digit character produced by `digitChar`. -/
theorem digitChar_val (d : Nat) (h : d < 10) :
    isDigitC (digitChar d) = true ∧ (digitChar d).toNat - 48 = d := by
  interval_cases d <;> exact ⟨by decide, by decide⟩

/-- The digit-prefix evaluator runs through the rendered digits of `n` and
resumes on the remainder with the accumulated value. -/
theorem digitsVal_toDecAux (fuel : Nat) : ∀ (n a : Nat) (rest : List Char), n < fuel →
    digitsVal (toDecAux fuel n rest) a =
      digitsVal rest (a * 10 ^ (toDecAux fuel n []).length + n) := by
  induction fuel with
  | zero => omega
  | succ f ih =>
    intro n a rest h
    by_cases h10 : n < 10
    · simp only [toDecAux, h10, if_true]
      have hd := digitChar_val n h10
      simp [digitsVal, hd.1, hd.2]
    · simp only [toDecAux, h10, if_false]
      have hlt : n / 10 < n := Nat.div_lt_self (by omega) (by omega)
      rw [ih (n / 10) a (digitChar (n % 10) :: rest) (by omega)]
      have hd := digitChar_val (n % 10) (Nat.mod_lt _ (by omega))
      simp only [digitsVal, hd.1, if_true, hd.2]
      have hL : (toDecAux f (n / 10) [digitChar (n % 10)]).length =
          (toDecAux f (n / 10) []).length + 1 := by
        rw [toDecAux_append f (n / 10) [digitChar (n % 10)] (by omega)]
        simp
      rw [hL, pow_succ]
      congr 1
      rw [← mul_assoc]
      generalize a * 10 ^ (toDecAux f (n / 10) []).length = C
      have hsplit := Nat.div_add_mod n 10
      omega

/-- `digitsVal` of the decimal rendering of `n` followed by a non-digit
evaluates to `n` and stops. -/
theorem digitsVal_toDecimal (n : Nat) (rest : List Char)
    (hrest : ∀ c r, rest = c :: r → isDigitC c = false) :
    digitsVal (toDecimal n ++ rest) 0 = n := by
  unfold toDecimal
  rw [← toDecAux_append (n + 1) n rest (by omega),
    digitsVal_toDecAux (n + 1) n 0 rest (by omega)]
  match rest with
  | [] => simp [digitsVal]
  | c :: r => simp [digitsVal, hrest c r rfl]

/-! ## Lemmas: the byte-at-a-time search of nc_read_until -/

/-- `readUntilGo` consumes exactly the block whose first end-tag
occurrence closes it: if `endtag` is a suffix of `acc ++ s` but of no
shorter extension of `acc` by a prefix of `s`, the loop stops right after
`s` and returns the rest untouched. -/
theorem readUntilGo_cons (endtag acc : List Char) (c : Char) (l : List Char) :
    readUntilGo endtag acc (c :: l) =
      if endtag <:+ acc ++ [c] then some (acc ++ [c], l)
      else readUntilGo endtag (acc ++ [c]) l := by
  simp only [readUntilGo]

theorem readUntilGo_spec (endtag : List Char) :
    ∀ (s rest acc : List Char), s ≠ [] →
    endtag <:+ acc ++ s →
    (∀ i, i + 1 < s.length → ¬ endtag <:+ acc ++ s.take (i + 1)) →
    readUntilGo endtag acc (s ++ rest) = some (acc ++ s, rest) := by
  intro s
  induction s with
  | nil => intro rest acc h; exact absurd rfl h
  | cons c s ih =>
    intro rest acc _ h2 h3
    cases s with
    | nil =>
      show readUntilGo endtag acc (c :: ([] ++ rest)) = _
      rw [List.nil_append, readUntilGo_cons, if_pos (by simpa using h2)]
    | cons c2 s2 =>
      show readUntilGo endtag acc (c :: (c2 :: s2 ++ rest)) = _
      rw [readUntilGo_cons, if_neg]
      · have := ih rest (acc ++ [c]) (by simp)
          (by simpa [List.append_assoc] using h2)
          (by
            intro i hi
            have := h3 (i + 1) (by simpa using Nat.add_lt_add_right hi 1)
            simpa [List.append_assoc] using this)
        simpa [List.append_assoc] using this
      · have := h3 0 (by simp)
        simpa using this

/-- First-occurrence property of `nc_read_until`: prepend the block, get
it back with the rest of the stream. -/
theorem nc_read_until_exact (endtag s rest : List Char) (h1 : s ≠ [])
    (h2 : endtag <:+ s)
    (h3 : ∀ i, i + 1 < s.length → ¬ endtag <:+ s.take (i + 1)) :
    nc_read_until endtag (s ++ rest) = some (s, rest) := by
  have := readUntilGo_spec endtag s rest [] h1 (by simpa using h2)
    (by intro i hi; simpa using h3 i hi)
  simpa using this

/-- Reading up to `"\n#"` at the head of the stream. -/
theorem readUntil_nlHash (rest : List Char) :
    nc_read_until ['\n', '#'] ('\n' :: '#' :: rest) = some (['\n', '#'], rest) := by
  have := nc_read_until_exact ['\n', '#'] ['\n', '#'] rest (by simp)
    (by decide)
    (by
      intro i hi
      simp only [List.length_cons, List.length_nil] at hi
      have hz : i = 0 := by omega
      subst hz
      decide)
  simpa using this

/-- Reading the header line up to `"\n"`: the token is everything up to
and including the first newline. -/
theorem readUntil_nl (hdr rest : List Char) (h : '\n' ∉ hdr) :
    nc_read_until ['\n'] (hdr ++ '\n' :: rest) = some (hdr ++ ['\n'], rest) := by
  have := nc_read_until_exact ['\n'] (hdr ++ ['\n']) rest
    (List.append_ne_nil_of_right_ne_nil hdr (by simp))
    (List.suffix_append hdr ['\n'])
    (by
      intro i hi hsuf
      rw [List.take_append_of_le_length (by simpa using hi)] at hsuf
      have hmem : '\n' ∈ hdr.take (i + 1) := hsuf.mem (by simp)
      exact h (List.take_subset (i + 1) hdr hmem))
  simpa using this

/-! ## Lemmas: strtoul on rendered chunk sizes -/

theorem decDigits_props : ∀ c ∈ decDigits,
    isSpaceC c = false ∧ c ≠ '-' ∧ c ≠ '+' ∧ c ≠ '#' ∧ c ≠ '\n' ∧ isDigitC c = true := by
  decide

/-- `strtoul` reads back exactly the decimal rendering of `n` when a
newline terminates the token. -/
theorem strtoul10_toDecimal (n : Nat) (hn : n < 2 ^ 64) :
    strtoul10 (toDecimal n ++ ['\n']) = n := by
  obtain ⟨c, cs, hc⟩ := List.exists_cons_of_ne_nil (toDecimal_ne_nil n)
  have hcd : c ∈ decDigits := toDecimal_mem n c (by rw [hc]; simp)
  have hp := decDigits_props c hcd
  have hdrop : (toDecimal n ++ ['\n']).dropWhile isSpaceC = c :: (cs ++ ['\n']) := by
    rw [hc, List.cons_append, List.dropWhile_cons, hp.1]
    simp
  unfold strtoul10
  rw [hdrop]
  simp only [hp.2.1, hp.2.2.1, if_false]
  rw [← List.cons_append, ← hc]
  rw [digitsVal_toDecimal n ['\n'] (by intro x r hx; cases hx; decide)]
  omega

/-- The rendered chunk size is never the end-of-chunks token `"#\n"`. -/
theorem toDecimal_ne_hash (n : Nat) : toDecimal n ++ ['\n'] ≠ ['#', '\n'] := by
  intro h
  have hlen : (toDecimal n).length = 1 := by
    have := congrArg List.length h
    simp at this
    omega
  obtain ⟨c, cs, hc⟩ := List.exists_cons_of_ne_nil (toDecimal_ne_nil n)
  have hcs : cs = [] := by
    rw [hc] at hlen
    simpa using hlen
  subst hcs
  rw [hc] at h
  have : c = '#' := by
    have := congrArg (fun l => l.head?) h
    simpa using this
  have hcd : c ∈ decDigits := toDecimal_mem n c (by rw [hc]; simp)
  rw [this] at hcd
  simp [decDigits] at hcd

/-! ## Lemmas: the NETCONF 1.1 chunk loop -/

/-- One iteration of the chunk loop on a stream beginning with a chunk
header introducer and a newline-free header token. -/
theorem readChunks_step (fuel : Nat) (msg hdr rest : List Char) (hnl : '\n' ∉ hdr) :
    readChunks (fuel + 1) msg ('\n' :: '#' :: (hdr ++ '\n' :: rest)) =
      if hdr ++ ['\n'] = ['#', '\n'] then
        (if msg = [] then .malformed else .ok msg rest)
      else if strtoul10 (hdr ++ ['\n']) = 0 then .malformed
      else
        match readExact (strtoul10 (hdr ++ ['\n'])) rest with
        | Option.none => .err
        | Option.some r => readChunks fuel (msg ++ r.1) r.2 := by
  have h1 := readUntil_nlHash (hdr ++ '\n' :: rest)
  have h2 := readUntil_nl hdr rest hnl
  simp only [readChunks, h1, h2]

/-- The end-of-chunks terminator `"\n##\n"`: a fault on an empty
accumulated message, the completed body otherwise. -/
theorem readChunks_term (fuel : Nat) (msg rest : List Char) :
    readChunks (fuel + 1) msg ('\n' :: '#' :: '#' :: '\n' :: rest) =
      if msg = [] then .malformed else .ok msg rest := by
  have := readChunks_step fuel msg ['#'] rest (by decide)
  simp only [List.cons_append, List.nil_append] at this ⊢
  rw [this]
  simp

/-! ## Lemmas: first occurrence of the 1.0 sentinel -/

/-- If a body contains no full sentinel and does not end with `"]]>"`,
then no strict prefix of `body ++ "]]>]]>"` ends with the sentinel: the
first occurrence is the appended one.  The `"]]>"` condition is exactly
what rules out the straddling occurrence (three sentinel characters after
a body ending in `"]]>"` already form `"]]>]]>"`). -/
theorem no_early_sentinel (body : List Char)
    (h1 : ¬ NC_VERSION_10_ENDTAG <:+: body)
    (h2 : ¬ "]]>".data <:+ body) :
    ∀ t, t + 1 < (body ++ NC_VERSION_10_ENDTAG).length →
    ¬ NC_VERSION_10_ENDTAG <:+ (body ++ NC_VERSION_10_ENDTAG).take (t + 1) := by
  intro t ht hsuf
  rw [List.length_append] at ht
  have h6 : NC_VERSION_10_ENDTAG.length = 6 := by decide
  by_cases hle : t + 1 ≤ body.length
  · rw [List.take_append_of_le_length hle] at hsuf
    exact h1 (hsuf.isInfix.trans (List.take_prefix (t + 1) body).isInfix)
  · obtain ⟨j, hj, hj1, hj5⟩ : ∃ j, t + 1 = body.length + j ∧ 1 ≤ j ∧ j ≤ 5 := by
      exact ⟨t + 1 - body.length, by omega, by omega, by omega⟩
    rw [hj, List.take_append] at hsuf
    have hrev : NC_VERSION_10_ENDTAG.reverse <+:
        (NC_VERSION_10_ENDTAG.take j).reverse ++ body.reverse := by
      rw [← List.reverse_append]
      exact List.reverse_prefix.mpr hsuf
    interval_cases j
    · rw [show (NC_VERSION_10_ENDTAG.take 1).reverse = [']'] from by decide,
        show NC_VERSION_10_ENDTAG.reverse = '>' :: ']' :: ']' :: '>' :: ']' :: [']'] from by decide,
        List.cons_append] at hrev
      exact absurd (List.cons_prefix_cons.mp hrev).1 (by decide)
    · rw [show (NC_VERSION_10_ENDTAG.take 2).reverse = [']', ']'] from by decide,
        show NC_VERSION_10_ENDTAG.reverse = '>' :: ']' :: ']' :: '>' :: ']' :: [']'] from by decide,
        List.cons_append] at hrev
      exact absurd (List.cons_prefix_cons.mp hrev).1 (by decide)
    · rw [show (NC_VERSION_10_ENDTAG.take 3).reverse = ['>', ']', ']'] from by decide,
        show NC_VERSION_10_ENDTAG.reverse = '>' :: ']' :: ']' :: '>' :: ']' :: [']'] from by decide,
        List.cons_append, List.cons_append, List.cons_append, List.nil_append] at hrev
      have hr1 := (List.cons_prefix_cons.mp hrev).2
      have hr2 := (List.cons_prefix_cons.mp hr1).2
      have hr3 := (List.cons_prefix_cons.mp hr2).2
      have : "]]>".data.reverse <+: body.reverse := by
        rw [show "]]>".data.reverse = ['>', ']', ']'] from by decide]
        exact hr3
      exact h2 (List.reverse_prefix.mp this)
    · rw [show (NC_VERSION_10_ENDTAG.take 4).reverse = [']', '>', ']', ']'] from by decide,
        show NC_VERSION_10_ENDTAG.reverse = '>' :: ']' :: ']' :: '>' :: ']' :: [']'] from by decide,
        List.cons_append] at hrev
      exact absurd (List.cons_prefix_cons.mp hrev).1 (by decide)
    · rw [show (NC_VERSION_10_ENDTAG.take 5).reverse = [']', ']', '>', ']', ']'] from by decide,
        show NC_VERSION_10_ENDTAG.reverse = '>' :: ']' :: ']' :: '>' :: ']' :: [']'] from by decide,
        List.cons_append] at hrev
      exact absurd (List.cons_prefix_cons.mp hrev).1 (by decide)

/-- The 1.0 read phase recovers a body whose sentinel occurrence is the
appended one. -/
theorem readPhase_v10 (body : List Char)
    (h1 : ¬ NC_VERSION_10_ENDTAG <:+: body)
    (h2 : ¬ "]]>".data <:+ body) :
    readPhase .v10 (body ++ NC_VERSION_10_ENDTAG) = .ok body [] := by
  have hread := nc_read_until_exact NC_VERSION_10_ENDTAG (body ++ NC_VERSION_10_ENDTAG) []
    (List.append_ne_nil_of_right_ne_nil body (by decide))
    (List.suffix_append body NC_VERSION_10_ENDTAG)
    (no_early_sentinel body h1 h2)
  rw [List.append_nil] at hread
  unfold readPhase
  rw [hread]
  have hlen : (body ++ NC_VERSION_10_ENDTAG).length - 6 = body.length := by
    rw [List.length_append, show NC_VERSION_10_ENDTAG.length = 6 from by decide]
    omega
  simp only [hlen]
  rw [List.take_left body NC_VERSION_10_ENDTAG]


/-! ## Lemmas: the 1.0 writer is transparent

For a NETCONF 1.0 session each flush writes the staged bytes verbatim, so
written-bytes ++ staging is invariant under every non-closing call and the
final output is the concatenated payload followed by the sentinel. -/

theorem nc_write_clb_flush_v10 (st : List Char) :
    (nc_write_clb_flush .v10 st).2 ++ (nc_write_clb_flush .v10 st).1 = st := by
  unfold nc_write_clb_flush
  by_cases h : st.length ≠ 0 <;> simp [h, nc_write_starttag_and_msg]

theorem preFlush_v10 (st : List Char) (cond : Prop) [Decidable cond] :
    (if cond then nc_write_clb_flush .v10 st else (st, [])).2 ++
      (if cond then nc_write_clb_flush .v10 st else (st, [])).1 = st := by
  by_cases h : cond
  · rw [if_pos h]
    exact nc_write_clb_flush_v10 st
  · rw [if_neg h]
    simp

theorem contentLoop_cons (v : NC_VERSION) (c : Char) (rest st : List Char) :
    contentLoop v (c :: rest) st =
      ((contentLoop v rest
          ((if st.length + 5 ≥ WRITE_BUFSIZE then nc_write_clb_flush v st
            else (st, [])).1 ++ escapeChar c)).1,
       (if st.length + 5 ≥ WRITE_BUFSIZE then nc_write_clb_flush v st else (st, [])).2 ++
       (contentLoop v rest
          ((if st.length + 5 ≥ WRITE_BUFSIZE then nc_write_clb_flush v st
            else (st, [])).1 ++ escapeChar c)).2) := rfl

theorem contentLoop_v10_payload (input : List Char) : ∀ st : List Char,
    (contentLoop .v10 input st).2 ++ (contentLoop .v10 input st).1 =
      st ++ escapeList input := by
  induction input with
  | nil => intro st; simp [contentLoop, escapeList]
  | cons c rest ih =>
    intro st
    rw [contentLoop_cons]
    have hp := preFlush_v10 st (st.length + 5 ≥ WRITE_BUFSIZE)
    generalize (if st.length + 5 ≥ WRITE_BUFSIZE then nc_write_clb_flush NC_VERSION.v10 st
      else (st, [])) = P at hp ⊢
    dsimp only
    rw [List.append_assoc, ih (P.1 ++ escapeChar c)]
    simp only [escapeList, ← List.append_assoc, hp]

theorem nc_write_clb_some (v : NC_VERSION) (b : List Char) (x : Bool) (st : List Char) :
    nc_write_clb v (some b) x st =
      if ¬ x ∧ b.length > WRITE_BUFSIZE then
        ((if st.length ≠ 0 ∧ st.length + b.length > WRITE_BUFSIZE then
            nc_write_clb_flush v st else (st, [])).1,
         (if st.length ≠ 0 ∧ st.length + b.length > WRITE_BUFSIZE then
            nc_write_clb_flush v st else (st, [])).2 ++ nc_write_starttag_and_msg v b)
      else if x then
        ((contentLoop v b (if st.length ≠ 0 ∧ st.length + b.length > WRITE_BUFSIZE then
            nc_write_clb_flush v st else (st, [])).1).1,
         (if st.length ≠ 0 ∧ st.length + b.length > WRITE_BUFSIZE then
            nc_write_clb_flush v st else (st, [])).2 ++
         (contentLoop v b (if st.length ≠ 0 ∧ st.length + b.length > WRITE_BUFSIZE then
            nc_write_clb_flush v st else (st, [])).1).2)
      else
        ((if st.length ≠ 0 ∧ st.length + b.length > WRITE_BUFSIZE then
            nc_write_clb_flush v st else (st, [])).1 ++ b,
         (if st.length ≠ 0 ∧ st.length + b.length > WRITE_BUFSIZE then
            nc_write_clb_flush v st else (st, [])).2) := rfl

theorem applyCall_v10_payload (c : ClbCall) (st : List Char) (h : c ≠ .close) :
    (applyCall .v10 c st).2 ++ (applyCall .v10 c st).1 = st ++ payloadOf c := by
  match c with
  | .close => exact absurd rfl h
  | .raw b =>
    show (nc_write_clb .v10 (some b) false st).2 ++
      (nc_write_clb .v10 (some b) false st).1 = st ++ b
    rw [nc_write_clb_some]
    by_cases hbig : b.length > WRITE_BUFSIZE
    · rw [if_pos (by simpa using hbig)]
      by_cases hz : st.length ≠ 0
      · rw [if_pos ⟨hz, by omega⟩]
        unfold nc_write_clb_flush
        rw [if_pos hz]
        simp [nc_write_starttag_and_msg]
      · have hst : st = [] := by simpa using hz
        subst hst
        rw [if_neg (by simp)]
        simp [nc_write_starttag_and_msg]
    · rw [if_neg (by simpa using hbig), if_neg (by simp)]
      have hp := preFlush_v10 st (st.length ≠ 0 ∧ st.length + b.length > WRITE_BUFSIZE)
      generalize (if st.length ≠ 0 ∧ st.length + b.length > WRITE_BUFSIZE then
        nc_write_clb_flush NC_VERSION.v10 st else (st, [])) = P at hp ⊢
      dsimp only
      rw [← List.append_assoc, hp]
  | .content b =>
    show (nc_write_clb .v10 (some b) true st).2 ++
      (nc_write_clb .v10 (some b) true st).1 = st ++ escapeList b
    rw [nc_write_clb_some]
    rw [if_neg (by simp), if_pos rfl]
    have hp := preFlush_v10 st (st.length ≠ 0 ∧ st.length + b.length > WRITE_BUFSIZE)
    generalize (if st.length ≠ 0 ∧ st.length + b.length > WRITE_BUFSIZE then
      nc_write_clb_flush NC_VERSION.v10 st else (st, [])) = P at hp ⊢
    dsimp only
    rw [List.append_assoc, contentLoop_v10_payload b P.1, ← List.append_assoc, hp]

theorem runCalls_v10_payload (calls : List ClbCall) : ∀ st : List Char,
    ClbCall.close ∉ calls →
    runCalls .v10 (calls ++ [ClbCall.close]) st =
      ([], st ++ payloadConcat calls ++ NC_VERSION_10_ENDTAG) := by
  induction calls with
  | nil =>
    intro st _
    show runCalls .v10 [ClbCall.close] st = _
    have hrw : runCalls .v10 [ClbCall.close] st =
        ((nc_write_clb_flush .v10 st).1,
         ((nc_write_clb_flush .v10 st).2 ++ nc_write_endtag .v10) ++ []) := rfl
    rw [hrw]
    by_cases hz : st.length ≠ 0
    · unfold nc_write_clb_flush
      rw [if_pos hz]
      simp [nc_write_starttag_and_msg, nc_write_endtag, NC_VERSION_10_ENDTAG, payloadConcat]
    · have hst : st = [] := by simpa using hz
      subst hst
      simp [nc_write_clb_flush, nc_write_endtag, NC_VERSION_10_ENDTAG, payloadConcat]
  | cons c cs ih =>
    intro st hmem
    have hc : c ≠ .close := by
      intro hcon
      exact hmem (hcon ▸ List.mem_cons_self c cs)
    have hcs : ClbCall.close ∉ cs := fun hx => hmem (List.mem_cons_of_mem c hx)
    have hrw : runCalls .v10 ((c :: cs) ++ [ClbCall.close]) st =
        ((runCalls .v10 (cs ++ [ClbCall.close]) (applyCall .v10 c st).1).1,
         (applyCall .v10 c st).2 ++
           (runCalls .v10 (cs ++ [ClbCall.close]) (applyCall .v10 c st).1).2) := rfl
    rw [hrw, ih _ hcs]
    have hpp := applyCall_v10_payload c st hc
    simp only [Prod.mk.injEq]
    refine ⟨trivial, ?_⟩
    simp only [payloadConcat, ← List.append_assoc, hpp]

/-! ## Lemmas: wire form of a single framed message -/

/-- 1.0 framing of a single body: the body verbatim followed by the
sentinel. -/
theorem wireOf_v10 (body : List Char) :
    wireOf .v10 body = body ++ NC_VERSION_10_ENDTAG := by
  unfold wireOf
  rw [show [ClbCall.raw body, ClbCall.close] = [ClbCall.raw body] ++ [ClbCall.close] from rfl,
    runCalls_v10_payload [ClbCall.raw body] [] (by simp)]
  simp [payloadConcat, payloadOf]

/-- 1.1 framing of a single non-empty body: one chunk header, the body,
and the end-of-chunks terminator.  Whether the body goes through the
staging buffer or the direct path, the bytes are the same. -/
theorem wireOf_v11 (body : List Char) (h : body ≠ []) :
    wireOf .v11 body = chunkHeader body.length ++ body ++ "\n##\n".data := by
  unfold wireOf
  by_cases hbig : body.length > WRITE_BUFSIZE
  · have hrw : runCalls .v11 [ClbCall.raw body, ClbCall.close] [] =
        ((nc_write_clb .v11 none false (nc_write_clb .v11 (some body) false []).1).1,
         (nc_write_clb .v11 (some body) false []).2 ++
           ((nc_write_clb .v11 none false (nc_write_clb .v11 (some body) false []).1).2 ++ [])) := rfl
    rw [hrw, nc_write_clb_some]
    rw [if_pos (by simpa using hbig), if_neg (by simp)]
    dsimp only
    simp [nc_write_clb_flush, nc_write_endtag, nc_write_starttag_and_msg, nc_write_clb]
  · have hrw : runCalls .v11 [ClbCall.raw body, ClbCall.close] [] =
        ((nc_write_clb .v11 none false (nc_write_clb .v11 (some body) false []).1).1,
         (nc_write_clb .v11 (some body) false []).2 ++
           ((nc_write_clb .v11 none false (nc_write_clb .v11 (some body) false []).1).2 ++ [])) := rfl
    rw [hrw, nc_write_clb_some]
    rw [if_neg (by simpa using hbig), if_neg (by simp), if_neg (by simp)]
    dsimp only
    have hlen : body.length ≠ 0 := by
      intro hcon
      exact h (List.length_eq_zero.mp hcon)
    simp only [nc_write_clb, nc_write_clb_flush, List.nil_append, List.length_nil]
    rw [if_pos hlen]
    simp [nc_write_endtag, nc_write_starttag_and_msg]

/-! ## Lemmas: the 1.1 reader undoes the 1.1 writer -/

/-- One well-formed chunk followed by the terminator: the reader appends
the chunk to the accumulated message and finishes. -/
theorem readChunks_chunk_then_term (fuel : Nat) (msg body : List Char)
    (hb : body ≠ []) (hn : body.length < 2 ^ 64) (hf : 2 ≤ fuel) :
    readChunks fuel msg (chunkHeader body.length ++ (body ++ "\n##\n".data)) =
      .ok (msg ++ body) [] := by
  obtain ⟨f, rfl⟩ : ∃ f, fuel = f + 1 + 1 := ⟨fuel - 2, by omega⟩
  have hstream : chunkHeader body.length ++ (body ++ "\n##\n".data) =
      '\n' :: '#' :: (toDecimal body.length ++ '\n' :: (body ++ "\n##\n".data)) := by
    simp [chunkHeader]
  have hz : body.length ≠ 0 := by
    intro hcon
    exact hb (List.length_eq_zero.mp hcon)
  rw [hstream,
    readChunks_step (f + 1) msg (toDecimal body.length) _ (toDecimal_not_newline _),
    if_neg (toDecimal_ne_hash body.length), strtoul10_toDecimal body.length hn,
    if_neg hz]
  have hre : readExact body.length (body ++ "\n##\n".data) = some (body, "\n##\n".data) := by
    unfold readExact
    rw [if_pos (by simp), List.take_left, List.drop_left]
  rw [hre]
  show readChunks (f + 1) (msg ++ body) ('\n' :: '#' :: '#' :: '\n' :: []) = _
  rw [readChunks_term f (msg ++ body) [],
    if_neg (List.append_ne_nil_of_right_ne_nil msg hb)]

/-- 1.1 round trip: write a non-empty body, read it back. -/
theorem readPhase_v11_roundtrip (body : List Char) (h : body ≠ [])
    (hn : body.length < 2 ^ 64) :
    readPhase .v11 (wireOf .v11 body) = .ok body [] := by
  rw [wireOf_v11 body h, List.append_assoc]
  show readChunks ((chunkHeader body.length ++ (body ++ "\n##\n".data)).length + 1) []
    (chunkHeader body.length ++ (body ++ "\n##\n".data)) = _
  rw [readChunks_chunk_then_term _ [] body h hn
    (by
      simp only [List.length_append]
      have := toDecAux_length (body.length + 1) body.length [] (by omega)
      simp only [chunkHeader, List.length_cons, List.length_append]
      omega)]
  rw [List.nil_append]

/-! ## Lemmas: the would-block sleep accounting of nc_read -/

/-- Running `n` consecutive would-block events from a clean read position:
the sleep counter advances modulo 1000, the budget loses one second per
1000 sleeps (1 000 000 µs at 1000 µs per sleep), and the loop neither
fails nor completes as long as fewer than `1000 * t` sleeps have
accumulated. -/
theorem ncReadGo_wouldBlock_run (count : Nat) (hc : 0 < count) :
    ∀ (n sc t slept : Nat) (evs : List ReadEv) (term : NC_SESSION_TERM_REASON),
    sc < 1000 → 0 < t → n + sc < 1000 * t →
    ncReadGo count (List.replicate n .wouldBlock ++ evs)
        ⟨0, sc, t, slept, .running, term⟩ =
      ncReadGo count evs
        ⟨0, (sc + n) % 1000, t - (sc + n) / 1000,
         slept + NC_TIMEOUT_STEP * n, .running, term⟩ := by
  intro n
  induction n with
  | zero =>
    intro sc t slept evs term hsc ht hlt
    simp only [List.replicate, List.nil_append]
    congr 1
    simp [Nat.mod_eq_of_lt hsc, Nat.div_eq_of_lt hsc]
  | succ n ih =>
    intro sc t slept evs term hsc ht hlt
    rw [List.replicate_succ, List.cons_append]
    show ncReadGo count (ReadEv.wouldBlock :: (List.replicate n .wouldBlock ++ evs)) _ = _
    simp only [ncReadGo, NC_TIMEOUT_STEP]
    norm_num
    by_cases hcond : 1000 = sc + 1
    · have hsc999 : sc = 999 := by omega
      subst hsc999
      have ht2 : 2 ≤ t := by omega
      simp only [hcond, if_pos, show ¬ t = 0 by omega, if_false, ite_true]
      rw [if_neg (by omega), if_pos (by omega)]
      rw [ih 0 (t - 1) (slept + 1000) evs term (by omega) (by omega) (by omega)]
      congr 1
      simp only [RState.mk.injEq, NC_TIMEOUT_STEP, true_and, and_true]
      omega
    · have hsc1 : sc + 1 < 1000 := by omega
      simp only [hcond, if_false, ite_false]
      rw [if_neg (by omega), if_pos (by omega)]
      rw [ih (sc + 1) t (slept + 1000) evs term hsc1 ht (by omega)]
      congr 1
      simp only [RState.mk.injEq, NC_TIMEOUT_STEP, true_and, and_true]
      omega

/-- Fewer than `1000 * t` would-block sleeps: the loop is still waiting,
with the budget reduced by one per full 1 000 000 µs slept. -/
theorem ncReadGo_partial (count : Nat) (hc : 0 < count) (t n slept : Nat)
    (ht : 0 < t) (hn : n < 1000 * t) (term : NC_SESSION_TERM_REASON) :
    ncReadGo count (List.replicate n .wouldBlock) ⟨0, 0, t, slept, .running, term⟩ =
      .moreNeeded ⟨0, n % 1000, t - n / 1000,
        slept + NC_TIMEOUT_STEP * n, .running, term⟩ := by
  have h1 := ncReadGo_wouldBlock_run count hc n 0 t slept [] term (by omega) ht (by omega)
  rw [List.append_nil] at h1
  rw [h1]
  show RRes.moreNeeded _ = _
  congr 1
  simp only [RState.mk.injEq, NC_TIMEOUT_STEP, true_and, and_true]
  omega

/-- Exactly `1000 * t` would-block sleeps exhaust a budget of `t`
seconds: the loop returns -1 with the session Invalid/Other, having slept
`1000000 * t` microseconds. -/
theorem ncReadGo_timeout (count : Nat) (hc : 0 < count) (t slept : Nat) (ht : 0 < t)
    (evs : List ReadEv) (term : NC_SESSION_TERM_REASON) :
    ncReadGo count (List.replicate (1000 * t) .wouldBlock ++ evs)
        ⟨0, 0, t, slept, .running, term⟩ =
      .failed ⟨0, 0, 0, slept + 1000000 * t, .invalid, .other⟩ := by
  have hsplit : List.replicate (1000 * t) ReadEv.wouldBlock =
      List.replicate (1000 * t - 1) ReadEv.wouldBlock ++
        List.replicate 1 ReadEv.wouldBlock := by
    rw [← List.replicate_add]
    congr 1
    omega
  rw [hsplit, List.append_assoc,
    ncReadGo_wouldBlock_run count hc (1000 * t - 1) 0 t slept _ term (by omega) ht (by omega)]
  have hstate : (⟨0, (0 + (1000 * t - 1)) % 1000, t - (0 + (1000 * t - 1)) / 1000,
      slept + NC_TIMEOUT_STEP * (1000 * t - 1), NC_STATUS.running, term⟩ : RState) =
      ⟨0, 999, 1, slept + 1000 * (1000 * t - 1), .running, term⟩ := by
    simp only [RState.mk.injEq, NC_TIMEOUT_STEP, true_and, and_true]
    omega
  rw [hstate]
  have hfinal : ncReadGo count (ReadEv.wouldBlock :: evs)
      ⟨0, 999, 1, slept + 1000 * (1000 * t - 1), .running, term⟩ =
      .failed ⟨0, 0, 0, slept + 1000 * (1000 * t - 1) + 1000, .invalid, .other⟩ := rfl
  rw [show List.replicate 1 ReadEv.wouldBlock ++ evs = ReadEv.wouldBlock :: evs from rfl,
    hfinal]
  congr 1
  simp only [RState.mk.injEq, true_and, and_true]
  omega

/-! ## Helper lemmas about call lists -/

theorem payloadConcat_append (a b : List ClbCall) :
    payloadConcat (a ++ b) = payloadConcat a ++ payloadConcat b := by
  induction a with
  | nil => simp [payloadConcat]
  | cons c cs ih => simp [payloadConcat, ih]

theorem capCalls_no_close (caps : List (List Char)) : ClbCall.close ∉ capCalls caps := by
  induction caps with
  | nil => simp [capCalls]
  | cons c cs ih => simp [capCalls, ih]

theorem payloadConcat_capCalls (caps : List (List Char)) :
    payloadConcat (capCalls caps) = capsPayload caps := by
  induction caps with
  | nil => rfl
  | cons c cs ih =>
    simp [capCalls, capsPayload, payloadConcat, payloadOf, ih, List.append_assoc]

theorem helloCalls_no_close (caps : List (List Char)) (sid : Option Nat) :
    ClbCall.close ∉ helloCalls caps sid := by
  intro h
  simp only [helloCalls, List.mem_cons, List.mem_append, List.mem_singleton] at h
  rcases h with (h | h) | (h | h)
  · exact ClbCall.noConfusion h
  · exact capCalls_no_close caps h
  · exact ClbCall.noConfusion h
  · simp at h

/-! ## Helper lemmas: classification and the malformed responder -/

theorem classifyParsed_table (root : Option XmlRoot) :
    classifyParsed root = classifyTable root := by
  rcases root with _ | r
  · rfl
  · rcases hns : r.ns with _ | nsv
    · simp [classifyParsed, classifyTable, hns]
    · by_cases hb : nsv = NC_NS_BASE
      · subst hb
        by_cases h1 : r.name = "rpc".data
        · simp [classifyParsed, classifyTable, hns, h1,
            show ("rpc".data ≠ "hello".data) from by decide]
        · by_cases h2 : r.name = "rpc-reply".data
          · simp [classifyParsed, classifyTable, hns, h1, h2,
              show ("rpc-reply".data ≠ "hello".data) from by decide]
          · by_cases h3 : r.name = "hello".data
            · simp [classifyParsed, classifyTable, hns, h1, h2, h3]
            · simp [classifyParsed, classifyTable, hns, h1, h2, h3,
                show (NC_NS_BASE ≠ NC_NS_NOTIF) from by decide]
      · by_cases hn : nsv = NC_NS_NOTIF
        · subst hn
          by_cases h4 : r.name = "notification".data
          · simp [classifyParsed, classifyTable, hns, h4,
              show (NC_NS_NOTIF ≠ NC_NS_BASE) from by decide]
          · simp [classifyParsed, classifyTable, hns, h4,
              show (NC_NS_NOTIF ≠ NC_NS_BASE) from by decide]
        · simp [classifyParsed, classifyTable, hns, hb, hn]

set_option maxRecDepth 10000 in
/-- The writer pipeline on the malformed-message reply calls yields the
199-byte chunk and terminator, by computation. -/
theorem replyCalls_malformed_wire :
    (runCalls .v11 (replyCalls Option.none (.error [ncErrMalformed]) ++ [ClbCall.close]) []).2 =
      malformedReplyWire := by
  decide

/-- The bytes of the malformed-message reply as `nc_write_msg` produces
them on a 1.1 session. -/
theorem malformed_reply_bytes (sess : Session)
    (hst : sess.status = .running) (hv : sess.version = .v11) :
    nc_write_msg sess (.reply Option.none (.error [ncErrMalformed])) =
      some (sess, malformedReplyWire) := by
  obtain ⟨st, term, side, ver, msgid⟩ := sess
  simp only at hst hv
  subst hst
  subst hv
  have h1 : nc_write_msg ⟨.running, term, side, .v11, msgid⟩
      (.reply Option.none (.error [ncErrMalformed])) =
      some (⟨.running, term, side, .v11, msgid⟩,
        (runCalls .v11 (replyCalls Option.none (.error [ncErrMalformed]) ++ [ClbCall.close]) []).2) := rfl
  rw [h1, replyCalls_malformed_wire]

/-- The three outcomes of the `malformed_msg` label on a running
server-side 1.1 session. -/
theorem malformedHandler_cases (sess : Session)
    (hst : sess.status = .running) (hside : sess.side = .server) (hv : sess.version = .v11) :
    malformedHandler .ok sess = (sess, malformedReplyWire) ∧
    malformedHandler .failKeep sess =
      ({ sess with status := .invalid, term_reason := .other }, []) ∧
    (∀ t, malformedHandler (.failInvalid t) sess =
      ({ sess with status := .invalid, term_reason := t }, [])) := by
  obtain ⟨st, term, side, ver, msgid⟩ := sess
  simp only at hst hside hv
  subst hst
  subst hside
  subst hv
  refine ⟨?_, ?_, ?_⟩
  · show malformedHandler .ok ⟨.running, term, .server, .v11, msgid⟩ = _
    unfold malformedHandler
    rw [if_pos ⟨rfl, rfl⟩, malformed_reply_bytes ⟨.running, term, .server, .v11, msgid⟩ rfl rfl]
  · rfl
  · intro t
    rfl

/-! # The claims -/

/-- Claim C1 (corrected): writing a body through the framed writer
(`nc_write_clb` with its final flush/endtag) and parsing the produced
bytes with the framed reader yields back exactly the original body - for
NETCONF 1.1 for every non-empty body (of `size_t` length), and for
NETCONF 1.0 for every body that neither contains the sentinel `]]>]]>`
nor ends with `]]>`.  The extra 1.0 condition is forced by the
counterexample `c1_v10_sentinel_counterexample`: a body ending in `]]>`
completes the sentinel three bytes early and the reader cuts the message
short. -/
theorem c1_framing_roundtrip :
    (∀ body : List Char, ¬ NC_VERSION_10_ENDTAG <:+: body → ¬ "]]>".data <:+ body →
      readPhase .v10 (wireOf .v10 body) = .ok body []) ∧
    (∀ body : List Char, body ≠ [] → body.length < 2 ^ 64 →
      readPhase .v11 (wireOf .v11 body) = .ok body []) := by
  constructor
  · intro body h1 h2
    rw [wireOf_v10]
    exact readPhase_v10 body h1 h2
  · intro body h hn
    exact readPhase_v11_roundtrip body h hn

/-- Claim C1, counterexample to the claim as stated: the body `"]]>"`
contains no `]]>]]>` sentinel, yet its 1.0 frame reads back as the empty
body with three stray bytes left in the stream. -/
theorem c1_v10_sentinel_counterexample :
    ¬ NC_VERSION_10_ENDTAG <:+: "]]>".data ∧
    readPhase .v10 (wireOf .v10 "]]>".data) = .ok [] "]]>".data ∧
    readPhase .v10 (wireOf .v10 "]]>".data) ≠ .ok "]]>".data [] := by
  refine ⟨by decide, by decide, by decide⟩

/-- Claim C1, witness: round trips at the concrete bodies `"abc"` (1.0)
and `"z"` (1.1). -/
theorem c1_framing_roundtrip_witness :
    (¬ NC_VERSION_10_ENDTAG <:+: "abc".data ∧ ¬ "]]>".data <:+ "abc".data ∧
      readPhase .v10 (wireOf .v10 "abc".data) = .ok "abc".data []) ∧
    ("z".data ≠ [] ∧ ("z".data).length < 2 ^ 64 ∧
      readPhase .v11 (wireOf .v11 "z".data) = .ok "z".data []) :=
  ⟨⟨by decide, by decide, c1_framing_roundtrip.1 "abc".data (by decide) (by decide)⟩,
   ⟨by decide, by decide, c1_framing_roundtrip.2 "z".data (by decide) (by decide)⟩⟩

/-- Claim C2 (corrected): on a running server-side NETCONF 1.1 session, a
message that cannot be classified (malformed framing or malformed
message) makes `nc_read_msg` send the malformed-message reply - one chunk
whose body is the rpc-reply open tag (with the base-1.0 namespace but,
reproducing io.c:1020/1029, no space before `xmlns`), one `<rpc-error>`
with error-type `rpc`, error-tag `malformed-message`, error-severity
`error`, and the closing tag - and return `NC_MSG_ERROR` with no surfaced
data.  Contrary to the claim as stated, the session is NOT transitioned
on a successful send: it is marked Invalid/Other only when the send
itself fails, and a send failure that already invalidated the session
keeps its own termination reason. -/
theorem c2_malformed_reply (sess : Session) (parse : List Char → Option XmlRoot)
    (stream : List Char) (w : WriteOutcome)
    (hst : sess.status = .running) (hside : sess.side = .server) (hv : sess.version = .v11)
    (hmal : readPhase sess.version stream = .malformed ∨
      (∃ body rest, readPhase sess.version stream = .ok body rest ∧
        classifyParsed (parse body) = Option.none)) :
    (w = .ok → nc_read_msg parse w sess stream =
      (.error, Option.none, sess, malformedReplyWire)) ∧
    (w = .failKeep → nc_read_msg parse w sess stream =
      (.error, Option.none, { sess with status := .invalid, term_reason := .other }, [])) ∧
    (∀ t, w = .failInvalid t → nc_read_msg parse w sess stream =
      (.error, Option.none, { sess with status := .invalid, term_reason := t }, [])) := by
  have hcases := malformedHandler_cases sess hst hside hv
  have hred : ∀ w' : WriteOutcome, nc_read_msg parse w' sess stream =
      (.error, Option.none, (malformedHandler w' sess).1, (malformedHandler w' sess).2) := by
    intro w'
    unfold nc_read_msg
    rw [if_pos (Or.inl hst)]
    rcases hmal with hm | ⟨body, rest, hok, hcl⟩
    · simp only [hm]
    · simp only [hok, hcl]
  refine ⟨?_, ?_, ?_⟩
  · intro hw
    subst hw
    rw [hred .ok, hcases.1]
  · intro hw
    subst hw
    rw [hred .failKeep, hcases.2.1]
  · intro t hw
    subst hw
    rw [hred (.failInvalid t), hcases.2.2 t]

set_option maxRecDepth 10000 in
/-- Claim C2, counterexample to the claim as stated: a running
server-side 1.1 session receiving the malformed frame `"\n##\n"`
(end-of-chunks with no chunk) whose error reply is sent successfully
stays in status Running - it does not transition to Invalid - and the
reply bytes run the tag name and the namespace together
(`<rpc-replyxmlns=...`), with no `<rpc-reply ` prefix anywhere. -/
theorem c2_no_invalidate_counterexample :
    (nc_read_msg (fun _ => Option.none) .ok ⟨.running, .none, .server, .v11, 0⟩
      "\n##\n".data).2.2.1.status = .running ∧
    NC_STATUS.running ≠ NC_STATUS.invalid ∧
    (nc_read_msg (fun _ => Option.none) .ok ⟨.running, .none, .server, .v11, 0⟩
      "\n##\n".data).1 = .error ∧
    "<rpc-replyxmlns=\"".data <:+:
      (nc_read_msg (fun _ => Option.none) .ok ⟨.running, .none, .server, .v11, 0⟩
        "\n##\n".data).2.2.2 ∧
    ¬ "<rpc-reply ".data <:+:
      (nc_read_msg (fun _ => Option.none) .ok ⟨.running, .none, .server, .v11, 0⟩
        "\n##\n".data).2.2.2 := by
  refine ⟨by decide, by decide, by decide, by decide, by decide⟩

/-- Claim C2, witness: the amended behaviour at a concrete running
server-side 1.1 session and the concrete malformed frame `"\n##\n"`, for
a successful send. -/
theorem c2_malformed_reply_witness :
    nc_read_msg (fun _ => Option.none) .ok ⟨.running, .none, .server, .v11, 0⟩
      "\n##\n".data = (.error, Option.none, ⟨.running, .none, .server, .v11, 0⟩,
        malformedReplyWire) :=
  (c2_malformed_reply ⟨.running, .none, .server, .v11, 0⟩ (fun _ => Option.none)
    "\n##\n".data .ok rfl rfl rfl (Or.inl (by decide))).1 rfl

/-- Claim C3 (corrected): `nc_write_msg` does NOT send a hello in 1.0
framing regardless of the session's version field - it refuses outright
(returns -1, writing nothing) whenever the version is not `NC_VERSION_10`
(io.c:1089-1092), so a hello can NOT be sent on a session whose version
is v1.1.  On a v1.0 session the hello is sent and framed with the 1.0
sentinel. -/
theorem c3_hello_framing (sess : Session) (caps : List (List Char)) (sid : Option Nat)
    (hok : sess.status = .running ∨ sess.status = .starting) :
    (sess.version = .v11 → nc_write_msg sess (.hello caps sid) = Option.none) ∧
    (sess.version = .v10 → nc_write_msg sess (.hello caps sid) =
      some (sess,
        ("<hello xmlns=\"".data ++ NC_NS_BASE ++ "\"><capabilities>".data) ++
        (capsPayload caps ++
          (match sid with
           | Option.some s => "</capabilities><session-id>".data ++ toDecimal (s % 2 ^ 32) ++
               "</session-id></hello>".data
           | Option.none => "</capabilities></hello>".data)) ++
        NC_VERSION_10_ENDTAG)) := by
  constructor
  · intro hv
    unfold nc_write_msg
    rw [if_pos hok]
    show (match (if sess.version ≠ NC_VERSION.v10 then Option.none
        else some (helloCalls caps sid, sess)) with
      | Option.none => Option.none
      | Option.some p => some (p.2, (runCalls sess.version (p.1 ++ [ClbCall.close]) []).2)) =
      Option.none
    rw [if_pos (show sess.version ≠ NC_VERSION.v10 from by
      rw [hv]; exact fun hcon => NC_VERSION.noConfusion hcon)]
  · intro hv
    unfold nc_write_msg
    rw [if_pos hok]
    show (match (if sess.version ≠ NC_VERSION.v10 then Option.none
        else some (helloCalls caps sid, sess)) with
      | Option.none => Option.none
      | Option.some p => some (p.2, (runCalls sess.version (p.1 ++ [ClbCall.close]) []).2)) = _
    rw [if_neg (show ¬ sess.version ≠ NC_VERSION.v10 from by rw [hv]; exact fun hcon => hcon rfl)]
    show some (sess, (runCalls sess.version (helloCalls caps sid ++ [ClbCall.close]) []).2) = _
    rw [hv, runCalls_v10_payload (helloCalls caps sid) [] (helloCalls_no_close caps sid)]
    simp only [helloCalls, payloadConcat, payloadConcat_append, payloadConcat_capCalls,
      payloadOf, List.nil_append, List.append_nil]
    rcases sid with _ | s <;>
      simp [payloadConcat_append, payloadConcat_capCalls, payloadConcat, payloadOf,
        List.append_assoc]

/-- Claim C3, counterexample to the claim as stated: on a running session
whose version field is v1.1, `nc_write_msg` returns -1 (`none`) for a
hello - the hello cannot be sent at all, rather than being sent in 1.0
framing. -/
theorem c3_hello_v11_counterexample :
    (⟨.running, .none, .client, .v11, 0⟩ : Session).version = .v11 ∧
    nc_write_msg ⟨.running, .none, .client, .v11, 0⟩ (.hello [] Option.none) =
      Option.none := by
  refine ⟨by decide, by decide⟩

/-- Claim C3, witness: the refusal on a concrete v1.1 session and the
1.0-framed hello (one capability, session-id 42) on a concrete v1.0
session. -/
theorem c3_hello_framing_witness :
    nc_write_msg ⟨.running, .none, .server, .v11, 0⟩ (.hello ["urn:a".data] (some 42)) =
      Option.none ∧
    nc_write_msg ⟨.running, .none, .server, .v10, 0⟩ (.hello ["urn:a".data] (some 42)) =
      some (⟨.running, .none, .server, .v10, 0⟩,
        ("<hello xmlns=\"".data ++ NC_NS_BASE ++ "\"><capabilities>".data) ++
        (capsPayload ["urn:a".data] ++
          ("</capabilities><session-id>".data ++ toDecimal (42 % 2 ^ 32) ++
            "</session-id></hello>".data)) ++
        NC_VERSION_10_ENDTAG) :=
  ⟨(c3_hello_framing ⟨.running, .none, .server, .v11, 0⟩ ["urn:a".data] (some 42)
      (Or.inl rfl)).1 rfl,
   (c3_hello_framing ⟨.running, .none, .server, .v10, 0⟩ ["urn:a".data] (some 42)
      (Or.inl rfl)).2 rfl⟩

/-- Claim C4 (confirmed): in the NETCONF 1.1 read path, a chunk header
whose parsed length is 0 is a fatal framing fault, and an end-of-chunks
token `#\n` arriving before any chunk payload has been accumulated is a
framing fault; in both cases `nc_read_msg` returns `NC_MSG_ERROR` and
surfaces no message body. -/
theorem c4_chunk_faults :
    (∀ (fuel : Nat) (msg hdr rest : List Char), '\n' ∉ hdr → hdr ≠ ['#'] →
      strtoul10 (hdr ++ ['\n']) = 0 →
      readChunks (fuel + 1) msg ('\n' :: '#' :: (hdr ++ '\n' :: rest)) = .malformed) ∧
    (∀ (fuel : Nat) (rest : List Char),
      readChunks (fuel + 1) [] ('\n' :: '#' :: '#' :: '\n' :: rest) = .malformed) ∧
    (∀ (parse : List Char → Option XmlRoot) (w : WriteOutcome) (sess : Session)
      (stream : List Char),
      (sess.status = .running ∨ sess.status = .starting) → sess.version = .v11 →
      readPhase .v11 stream = .malformed →
      (nc_read_msg parse w sess stream).1 = .error ∧
      (nc_read_msg parse w sess stream).2.1 = Option.none) := by
  refine ⟨?_, ?_, ?_⟩
  · intro fuel msg hdr rest hnl hne hz
    rw [readChunks_step fuel msg hdr rest hnl,
      if_neg (fun hcon => hne (List.append_cancel_right
        (hcon.trans (show (['#', '\n'] : List Char) = ['#'] ++ ['\n'] from rfl)))),
      hz, if_pos rfl]
  · intro fuel rest
    rw [readChunks_term fuel [] rest, if_pos rfl]
  · intro parse w sess stream hok hv hmal
    unfold nc_read_msg
    rw [if_pos hok, hv, hmal]
    exact ⟨rfl, rfl⟩

/-- Claim C4, witness: the two faults and the `NC_MSG_ERROR` outcome at
concrete inputs - a `"\n#0\n"` frame (zero chunk length) and a `"\n##\n"`
frame (end-of-chunks first) on a running client-side 1.1 session. -/
theorem c4_chunk_faults_witness :
    readChunks 1 [] ('\n' :: '#' :: ("0".data ++ '\n' :: [])) = .malformed ∧
    readChunks 1 [] ('\n' :: '#' :: '#' :: '\n' :: []) = .malformed ∧
    ((nc_read_msg (fun _ => Option.none) .ok ⟨.running, .none, .client, .v11, 0⟩
        "\n#0\n".data).1 = .error ∧
     (nc_read_msg (fun _ => Option.none) .ok ⟨.running, .none, .client, .v11, 0⟩
        "\n#0\n".data).2.1 = Option.none) :=
  ⟨c4_chunk_faults.1 0 [] "0".data [] (by decide) (by decide) (by decide),
   c4_chunk_faults.2.1 0 [],
   c4_chunk_faults.2.2 (fun _ => Option.none) .ok ⟨.running, .none, .client, .v11, 0⟩
     "\n#0\n".data (Or.inl rfl) rfl (by decide)⟩

/-- Claim C5 (confirmed): the per-message read budget of `nc_read` starts
at `NC_READ_TIMEOUT` = 30 seconds; the sleep step is 1000 µs (1 ms); the
budget decrements by one after every cumulative 1 000 000 µs of
would-block sleeps (1000 sleeps); and when the budget reaches zero the
read fails (-1) with the session transitioned to Invalid/Other, after
exactly 30 000 000 µs of sleeping for the default budget. -/
theorem c5_read_timeout_budget :
    NC_READ_TIMEOUT = 30 ∧
    NC_TIMEOUT_STEP = 1000 ∧
    (∀ (count t n slept : Nat) (term : NC_SESSION_TERM_REASON),
      0 < count → 0 < t → n < 1000 * t →
      ncReadGo count (List.replicate n .wouldBlock) ⟨0, 0, t, slept, .running, term⟩ =
        .moreNeeded ⟨0, n % 1000, t - n / 1000, slept + NC_TIMEOUT_STEP * n,
          .running, term⟩) ∧
    (∀ (count : Nat) (evs : List ReadEv) (term : NC_SESSION_TERM_REASON), 0 < count →
      nc_read count (List.replicate (1000 * NC_READ_TIMEOUT) .wouldBlock ++ evs)
          ⟨0, 0, NC_READ_TIMEOUT, 0, .running, term⟩ =
        .failed ⟨0, 0, 0, 30000000, .invalid, .other⟩) := by
  refine ⟨rfl, rfl, ?_, ?_⟩
  · intro count t n slept term hc ht hn
    exact ncReadGo_partial count hc t n slept ht hn term
  · intro count evs term hc
    unfold nc_read
    rw [if_pos (Or.inl rfl), if_neg (by omega),
      ncReadGo_timeout count hc NC_READ_TIMEOUT 0 (by decide) evs term]
    congr 1

/-- Claim C5, witness: 1500 would-block sleeps against a 2-second budget
leave the budget at 1 with 1 500 000 µs slept; the full default budget
fails Invalid/Other after 30 000 000 µs. -/
theorem c5_read_timeout_budget_witness :
    ncReadGo 1 (List.replicate 1500 .wouldBlock) ⟨0, 0, 2, 0, .running, .none⟩ =
      .moreNeeded ⟨0, 500, 1, 1500000, .running, .none⟩ ∧
    nc_read 1 (List.replicate (1000 * NC_READ_TIMEOUT) .wouldBlock ++ [])
        ⟨0, 0, NC_READ_TIMEOUT, 0, .running, .none⟩ =
      .failed ⟨0, 0, 0, 30000000, .invalid, .other⟩ :=
  ⟨by
    have h := c5_read_timeout_budget.2.2.1 1 2 1500 0 .none (by decide) (by decide) (by decide)
    rw [h]
    congr 1,
   c5_read_timeout_budget.2.2.2 1 [] .none (by decide)⟩

/-- Claim C6 (confirmed): the classifier maps a parsed root to Hello,
Rpc, RpcReply exactly when its namespace is the base-1.0 URI with name
`hello`, `rpc`, `rpc-reply`, to Notification exactly when its namespace
is the notification-1.0 URI with name `notification`, and everything
else - including a missing namespace and a failed parse - to the
malformed case, which `nc_read_msg` turns into `NC_MSG_ERROR` with no
surfaced data. -/
theorem c6_classification :
    (∀ root : Option XmlRoot, classifyParsed root = classifyTable root) ∧
    classifyParsed Option.none = Option.none ∧
    (∀ r : XmlRoot, r.ns = Option.none → classifyParsed (some r) = Option.none) ∧
    (∀ (parse : List Char → Option XmlRoot) (w : WriteOutcome) (sess : Session)
      (stream body rest : List Char),
      (sess.status = .running ∨ sess.status = .starting) →
      readPhase sess.version stream = .ok body rest →
      classifyParsed (parse body) = Option.none →
      (nc_read_msg parse w sess stream).1 = .error ∧
      (nc_read_msg parse w sess stream).2.1 = Option.none) := by
  refine ⟨classifyParsed_table, rfl, ?_, ?_⟩
  · intro r hns
    simp [classifyParsed, hns]
  · intro parse w sess stream body rest hok hfr hcl
    unfold nc_read_msg
    rw [if_pos hok]
    simp only [hfr]
    rw [hcl]
    exact ⟨rfl, rfl⟩

/-- Claim C6, witness: the table at the four concrete well-formed roots,
at a root with a foreign namespace, at a root with a missing namespace,
and the `NC_MSG_ERROR` outcome when the parse of a framed body fails. -/
theorem c6_classification_witness :
    classifyParsed (some ⟨some NC_NS_BASE, "hello".data⟩) =
      classifyTable (some ⟨some NC_NS_BASE, "hello".data⟩) ∧
    classifyParsed (some ⟨some NC_NS_NOTIF, "notification".data⟩) = some .notif ∧
    classifyParsed (some ⟨some "urn:other".data, "rpc".data⟩) = Option.none ∧
    (⟨Option.none, "rpc".data⟩ : XmlRoot).ns = Option.none ∧
    classifyParsed (some ⟨Option.none, "rpc".data⟩) = Option.none ∧
    ((nc_read_msg (fun _ => Option.none) .ok ⟨.running, .none, .client, .v10, 0⟩
        "<a/>]]>]]>".data).1 = .error ∧
     (nc_read_msg (fun _ => Option.none) .ok ⟨.running, .none, .client, .v10, 0⟩
        "<a/>]]>]]>".data).2.1 = Option.none) :=
  ⟨c6_classification.1 (some ⟨some NC_NS_BASE, "hello".data⟩),
   by decide, by decide, rfl,
   c6_classification.2.2.1 ⟨Option.none, "rpc".data⟩ rfl,
   c6_classification.2.2.2 (fun _ => Option.none) .ok ⟨.running, .none, .client, .v10, 0⟩
     "<a/>]]>]]>".data "<a/>".data [] (Or.inl rfl) (by decide) rfl⟩

/-- Length bound of a single escaped character. -/
theorem escapeChar_length (c : Char) : (escapeChar c).length ≤ 5 := by
  unfold escapeChar
  split_ifs <;> simp

/-- Staging-buffer bound of the content loop: starting within the
1024-byte staging buffer, it stays within it. -/
theorem contentLoop_staging_bound (v : NC_VERSION) (input : List Char) :
    ∀ st : List Char, st.length ≤ WRITE_BUFSIZE →
    (contentLoop v input st).1.length ≤ WRITE_BUFSIZE := by
  induction input with
  | nil => intro st h; exact h
  | cons c rest ih =>
    intro st h
    rw [contentLoop_cons]
    dsimp only
    apply ih
    have hesc := escapeChar_length c
    by_cases hc : st.length + 5 ≥ WRITE_BUFSIZE
    · rw [if_pos hc]
      unfold nc_write_clb_flush
      by_cases hz : st.length ≠ 0
      · rw [if_pos hz]
        simp only [List.length_append, List.length_nil, WRITE_BUFSIZE, BUFFERSIZE]
        omega
      · rw [if_neg hz]
        simp only [List.length_append, WRITE_BUFSIZE, BUFFERSIZE] at *
        omega
    · rw [if_neg hc]
      simp only [List.length_append, WRITE_BUFSIZE, BUFFERSIZE] at *
      omega

/-- Claim C7 (corrected): in content mode the writer expands `&`, `<`,
`>` to `&amp;`, `&lt;`, `&gt;` and copies every other byte verbatim into
the 1024-byte staging buffer (`WRITE_BUFSIZE` = 1024; the bytes that ever
reach the wire, followed by what remains staged, are exactly the escaped
input; the staging length never exceeds 1024).  The flush condition,
however, is `len + 5 >= 1024`: the buffer is flushed already when exactly
5 free bytes remain, not only when fewer than 5 would remain - see
`c7_flush_condition_counterexample`. -/
theorem c7_content_escaping :
    escapeChar '&' = "&amp;".data ∧
    escapeChar '<' = "&lt;".data ∧
    escapeChar '>' = "&gt;".data ∧
    (∀ c : Char, c ≠ '&' → c ≠ '<' → c ≠ '>' → escapeChar c = [c]) ∧
    WRITE_BUFSIZE = 1024 ∧
    (∀ input st : List Char,
      (contentLoop .v10 input st).2 ++ (contentLoop .v10 input st).1 =
        st ++ escapeList input) ∧
    (∀ (v : NC_VERSION) (c : Char) (rest st : List Char),
      st.length + 5 < WRITE_BUFSIZE →
      contentLoop v (c :: rest) st = contentLoop v rest (st ++ escapeChar c)) ∧
    (∀ (v : NC_VERSION) (c : Char) (rest st : List Char),
      st.length + 5 ≥ WRITE_BUFSIZE →
      contentLoop v (c :: rest) st =
        ((contentLoop v rest (escapeChar c)).1,
         nc_write_starttag_and_msg v st ++ (contentLoop v rest (escapeChar c)).2)) ∧
    (∀ (v : NC_VERSION) (input st : List Char), st.length ≤ WRITE_BUFSIZE →
      (contentLoop v input st).1.length ≤ WRITE_BUFSIZE) := by
  refine ⟨rfl, rfl, rfl, ?_, rfl, contentLoop_v10_payload, ?_, ?_, ?_⟩
  · intro c h1 h2 h3
    simp [escapeChar, h1, h2, h3]
  · intro v c rest st hlt
    rw [contentLoop_cons, if_neg (by omega)]
    dsimp only
    have : (contentLoop v rest (st ++ escapeChar c)).2 =
        [] ++ (contentLoop v rest (st ++ escapeChar c)).2 := by simp
    rw [← this]
  · intro v c rest st hge
    rw [contentLoop_cons, if_pos hge]
    have hz : st.length ≠ 0 := by
      simp only [WRITE_BUFSIZE, BUFFERSIZE] at hge
      omega
    unfold nc_write_clb_flush
    rw [if_pos hz]
    simp
  · exact contentLoop_staging_bound

set_option maxRecDepth 100000 in
/-- Claim C7, counterexample to the flush condition as stated: feeding
1019 plain bytes and then one `&` in content mode from an empty staging
buffer, the code flushes (a non-empty write happens) although exactly 5 -
not fewer than 5 - free bytes remain at the `&`; under the
specification's condition (`contentLoopSpec`, flush only when the next 5
bytes cannot fit) no write would happen. -/
theorem c7_flush_condition_counterexample :
    (contentLoop .v10 (List.replicate 1019 'a' ++ ['&']) []).2 ≠ [] ∧
    (contentLoopSpec .v10 (List.replicate 1019 'a' ++ ['&']) []).2 = [] ∧
    WRITE_BUFSIZE - (List.replicate 1019 'a').length = 5 := by
  refine ⟨by decide, by decide, by decide⟩

set_option maxRecDepth 100000 in
/-- Claim C7, witness: the escaping equations at concrete characters, the
payload identity at the concrete input `"a&b"`, both flush behaviours at
concrete staging buffers, and the staging bound at a concrete input. -/
theorem c7_content_escaping_witness :
    ('x' ≠ '&' ∧ 'x' ≠ '<' ∧ 'x' ≠ '>' ∧ escapeChar 'x' = ['x']) ∧
    (contentLoop .v10 "a&b".data []).2 ++ (contentLoop .v10 "a&b".data []).1 =
      [] ++ escapeList "a&b".data ∧
    (([] : List Char).length + 5 < WRITE_BUFSIZE ∧
      contentLoop .v10 ['&'] [] = contentLoop .v10 [] ([] ++ escapeChar '&')) ∧
    ((List.replicate 1019 'a').length + 5 ≥ WRITE_BUFSIZE ∧
      contentLoop .v10 ['&'] (List.replicate 1019 'a') =
        ((contentLoop .v10 [] (escapeChar '&')).1,
         nc_write_starttag_and_msg .v10 (List.replicate 1019 'a') ++
           (contentLoop .v10 [] (escapeChar '&')).2)) ∧
    (("ab".data).length ≤ WRITE_BUFSIZE ∧
      (contentLoop .v11 "cd".data "ab".data).1.length ≤ WRITE_BUFSIZE) :=
  ⟨⟨by decide, by decide, by decide,
     c7_content_escaping.2.2.2.1 'x' (by decide) (by decide) (by decide)⟩,
   c7_content_escaping.2.2.2.2.2.1 "a&b".data [],
   ⟨by decide, c7_content_escaping.2.2.2.2.2.2.1 .v10 '&' [] [] (by decide)⟩,
   ⟨by decide, c7_content_escaping.2.2.2.2.2.2.2.1 .v10 '&' [] (List.replicate 1019 'a')
     (by decide)⟩,
   ⟨by decide, c7_content_escaping.2.2.2.2.2.2.2.2 .v11 "cd".data "ab".data (by decide)⟩⟩

/-! ## Lemmas: the 1.1 writer emits a sequence of well-formed chunks,
and the 1.1 reader reassembles exactly their concatenated payload -/

theorem toDecAux_length_le (fuel : Nat) : ∀ (n k : Nat) (acc : List Char),
    n < 10 ^ k → 0 < k → (toDecAux fuel n acc).length ≤ acc.length + k := by
  induction fuel with
  | zero =>
    intro n k acc _ _
    simp only [toDecAux]
    omega
  | succ f ih =>
    intro n k acc hn hk
    by_cases h10 : n < 10
    · simp only [toDecAux, if_pos h10, List.length_cons]
      omega
    · simp only [toDecAux, if_neg h10]
      obtain ⟨j, rfl⟩ : ∃ j, k = j + 1 := ⟨k - 1, by omega⟩
      have hj : 0 < j := by
        rcases Nat.eq_zero_or_pos j with hz | hp
        · subst hz
          norm_num at hn
          omega
        · exact hp
      have hdiv : n / 10 < 10 ^ j := by
        have hlt : n < 10 ^ j * 10 := by
          rw [← pow_succ]
          exact hn
        omega
      have hrec := ih (n / 10) j (digitChar (n % 10) :: acc) hdiv hj
      simp only [List.length_cons] at hrec
      omega

/-- A 64-bit value prints in at most 20 decimal digits. -/
theorem toDecimal_length_le (n : Nat) (hn : n < 2 ^ 64) : (toDecimal n).length ≤ 20 := by
  have h20 : n < 10 ^ 20 := lt_of_lt_of_le hn (by norm_num)
  have h := toDecAux_length_le (n + 1) n 20 [] h20 (by norm_num)
  simpa using h

theorem chunkedWire_cons (p : List Char) (ps : List (List Char)) :
    chunkedWire (p :: ps) = frameChunk p ++ chunkedWire ps := by
  simp [chunkedWire, List.append_assoc]

theorem chunkedWire_length_ge (parts : List (List Char)) :
    parts.length ≤ (chunkedWire parts).length := by
  induction parts with
  | nil => decide
  | cons p ps ih =>
    rw [chunkedWire_cons]
    have h1 : 0 < (frameChunk p).length := by
      simp only [frameChunk, chunkHeader, List.length_append, List.length_cons]
      omega
    simp only [List.length_append, List.length_cons]
    omega

/-- The 1.1 chunk loop of the reader consumes any sequence of non-empty
chunks followed by the terminator and returns their concatenation. -/
theorem readChunks_chunkedWire (parts : List (List Char)) : ∀ (fuel : Nat) (msg : List Char),
    parts.length + 1 ≤ fuel →
    (∀ p ∈ parts, p ≠ [] ∧ p.length < 2 ^ 64) →
    msg ++ parts.flatten ≠ [] →
    readChunks fuel msg (chunkedWire parts) = .ok (msg ++ parts.flatten) [] := by
  induction parts with
  | nil =>
    intro fuel msg hf hp hne
    obtain ⟨f, rfl⟩ : ∃ f, fuel = f + 1 := ⟨fuel - 1, by omega⟩
    have hmsg : msg ≠ [] := by simpa using hne
    rw [show chunkedWire [] = '\n' :: '#' :: '#' :: '\n' :: [] from rfl,
      readChunks_term f msg [], if_neg hmsg]
    simp
  | cons p ps ih =>
    intro fuel msg hf hp hne
    obtain ⟨f, rfl⟩ : ∃ f, fuel = f + 1 := ⟨fuel - 1, by omega⟩
    have hpp := hp p (List.mem_cons_self p ps)
    have hz : p.length ≠ 0 := fun hcon => hpp.1 (List.length_eq_zero.mp hcon)
    have hstream : chunkedWire (p :: ps) =
        '\n' :: '#' :: (toDecimal p.length ++ '\n' :: (p ++ chunkedWire ps)) := by
      rw [chunkedWire_cons]
      simp [frameChunk, chunkHeader]
    rw [hstream, readChunks_step f msg (toDecimal p.length) (p ++ chunkedWire ps)
        (toDecimal_not_newline p.length),
      if_neg (toDecimal_ne_hash p.length), strtoul10_toDecimal p.length hpp.2, if_neg hz]
    have hre : readExact p.length (p ++ chunkedWire ps) = some (p, chunkedWire ps) := by
      unfold readExact
      rw [if_pos (by simp), List.take_left, List.drop_left]
    rw [hre]
    show readChunks f (msg ++ p) (chunkedWire ps) = _
    rw [ih f (msg ++ p) (by simp only [List.length_cons] at hf; omega)
      (fun q hq => hp q (List.mem_cons_of_mem p hq))
      (by simp [hpp.1])]
    simp

/-- The content loop on a 1.1 session writes a sequence of framed chunks
whose bodies, followed by the final staging buffer, concatenate to the
initial staging buffer plus the escaped input. -/
theorem contentLoop_v11_chunks (input : List Char) : ∀ st : List Char,
    st.length ≤ WRITE_BUFSIZE →
    ∃ parts : List (List Char),
      (∀ p ∈ parts, p ≠ [] ∧ p.length ≤ WRITE_BUFSIZE) ∧
      parts.flatten ++ (contentLoop .v11 input st).1 = st ++ escapeList input ∧
      (contentLoop .v11 input st).2 = (parts.map frameChunk).flatten := by
  induction input with
  | nil =>
    intro st _
    exact ⟨[], by simp, by simp [contentLoop, escapeList], by simp [contentLoop]⟩
  | cons c rest ih =>
    intro st hst
    have hW : WRITE_BUFSIZE = 1024 := rfl
    by_cases hfl : st.length + 5 ≥ WRITE_BUFSIZE
    · have hz : st.length ≠ 0 := by omega
      have heq : contentLoop .v11 (c :: rest) st =
          ((contentLoop .v11 rest (escapeChar c)).1,
           frameChunk st ++ (contentLoop .v11 rest (escapeChar c)).2) := by
        rw [contentLoop_cons, if_pos hfl]
        unfold nc_write_clb_flush
        rw [if_pos hz]
        simp [nc_write_starttag_and_msg, frameChunk]
      obtain ⟨ps, hp1, hp2, hp3⟩ := ih (escapeChar c)
        (by have := escapeChar_length c; omega)
      refine ⟨st :: ps, ?_, ?_, ?_⟩
      · intro q hq
        rcases List.mem_cons.mp hq with h | h
        · subst h
          exact ⟨fun hcon => hz (by simp [hcon]), hst⟩
        · exact hp1 q h
      · rw [heq]
        dsimp only
        rw [List.flatten_cons, List.append_assoc, hp2]
        simp [escapeList]
      · rw [heq]
        dsimp only
        rw [List.map_cons, List.flatten_cons, hp3]
    · have heq : contentLoop .v11 (c :: rest) st =
          ((contentLoop .v11 rest (st ++ escapeChar c)).1,
           (contentLoop .v11 rest (st ++ escapeChar c)).2) := by
        rw [contentLoop_cons, if_neg hfl]
        simp
      obtain ⟨ps, hp1, hp2, hp3⟩ := ih (st ++ escapeChar c)
        (by
          have := escapeChar_length c
          simp only [List.length_append]
          omega)
      refine ⟨ps, hp1, ?_, ?_⟩
      · rw [heq]
        dsimp only
        rw [hp2]
        simp [escapeList]
      · rw [heq]
        dsimp only
        exact hp3

/-- One non-closing `nc_write_clb` call on a 1.1 session writes a sequence
of framed chunks; their bodies followed by the new staging buffer equal
the old staging buffer plus the call's payload, and the staging buffer
stays within `WRITE_BUFSIZE`. -/
theorem applyCall_v11_chunks (c : ClbCall) (st : List Char) (hc : c ≠ .close)
    (hst : st.length ≤ WRITE_BUFSIZE)
    (hb : ∀ b : List Char, c = ClbCall.raw b → b.length < 2 ^ 64) :
    ∃ parts : List (List Char),
      (∀ p ∈ parts, p ≠ [] ∧ p.length < 2 ^ 64) ∧
      parts.flatten ++ (applyCall .v11 c st).1 = st ++ payloadOf c ∧
      (applyCall .v11 c st).2 = (parts.map frameChunk).flatten ∧
      (applyCall .v11 c st).1.length ≤ WRITE_BUFSIZE := by
  have hW : WRITE_BUFSIZE = 1024 := rfl
  have hWlt : WRITE_BUFSIZE < 2 ^ 64 := by norm_num [WRITE_BUFSIZE, BUFFERSIZE]
  match c with
  | .close => exact absurd rfl hc
  | .raw b =>
    have hblen : b.length < 2 ^ 64 := hb b rfl
    rw [show applyCall NC_VERSION.v11 (ClbCall.raw b) st =
        nc_write_clb .v11 (some b) false st from rfl, nc_write_clb_some]
    by_cases hbig : b.length > WRITE_BUFSIZE
    · rw [if_pos (by simpa using hbig)]
      by_cases hz : st.length = 0
      · have hstnil : st = [] := List.length_eq_zero.mp hz
        subst hstnil
        rw [if_neg (by simp)]
        refine ⟨[b], ?_, ?_, ?_, ?_⟩
        · intro q hq
          have hqb : q = b := by simpa using hq
          subst hqb
          exact ⟨fun hcon => by simp [hcon, hW] at hbig, hblen⟩
        · simp [payloadOf]
        · simp [nc_write_starttag_and_msg, frameChunk]
        · simp
      · rw [if_pos ⟨hz, by omega⟩]
        unfold nc_write_clb_flush
        rw [if_pos hz]
        refine ⟨[st, b], ?_, ?_, ?_, ?_⟩
        · intro q hq
          rcases List.mem_cons.mp hq with h | h
          · subst h
            exact ⟨fun hcon => hz (by simp [hcon]), by omega⟩
          · have hqb : q = b := by simpa using h
            subst hqb
            exact ⟨fun hcon => by simp [hcon, hW] at hbig, hblen⟩
        · simp [payloadOf]
        · simp [nc_write_starttag_and_msg, frameChunk]
        · simp
    · rw [if_neg (by simpa using hbig), if_neg (by simp)]
      by_cases hpre : st.length ≠ 0 ∧ st.length + b.length > WRITE_BUFSIZE
      · rw [if_pos hpre]
        unfold nc_write_clb_flush
        rw [if_pos hpre.1]
        refine ⟨[st], ?_, ?_, ?_, ?_⟩
        · intro q hq
          have hqs : q = st := by simpa using hq
          subst hqs
          exact ⟨fun hcon => hpre.1 (by simp [hcon]), by omega⟩
        · simp [payloadOf]
        · simp [nc_write_starttag_and_msg, frameChunk]
        · dsimp only
          simp only [List.nil_append]
          omega
      · rw [if_neg hpre]
        refine ⟨[], ?_, ?_, ?_, ?_⟩
        · intro q hq
          simp at hq
        · simp [payloadOf]
        · simp
        · dsimp only
          simp only [List.length_append]
          omega
  | .content b =>
    rw [show applyCall NC_VERSION.v11 (ClbCall.content b) st =
        nc_write_clb .v11 (some b) true st from rfl, nc_write_clb_some]
    rw [if_neg (by simp), if_pos rfl]
    by_cases hpre : st.length ≠ 0 ∧ st.length + b.length > WRITE_BUFSIZE
    · rw [if_pos hpre]
      unfold nc_write_clb_flush
      rw [if_pos hpre.1]
      obtain ⟨ps, hp1, hp2, hp3⟩ := contentLoop_v11_chunks b [] (by simp)
      refine ⟨st :: ps, ?_, ?_, ?_, ?_⟩
      · intro q hq
        rcases List.mem_cons.mp hq with h | h
        · subst h
          exact ⟨fun hcon => hpre.1 (by simp [hcon]), by omega⟩
        · obtain ⟨hq1, hq2⟩ := hp1 q h
          exact ⟨hq1, by omega⟩
      · dsimp only
        rw [List.flatten_cons, List.append_assoc, hp2]
        simp [payloadOf]
      · dsimp only
        rw [List.map_cons, List.flatten_cons, hp3]
        simp [nc_write_starttag_and_msg, frameChunk]
      · dsimp only
        exact contentLoop_staging_bound .v11 b [] (by simp)
    · rw [if_neg hpre]
      obtain ⟨ps, hp1, hp2, hp3⟩ := contentLoop_v11_chunks b st hst
      refine ⟨ps, ?_, ?_, ?_, ?_⟩
      · intro q hq
        obtain ⟨hq1, hq2⟩ := hp1 q hq
        exact ⟨hq1, by omega⟩
      · dsimp only
        rw [hp2]
        simp [payloadOf]
      · dsimp only
        rw [hp3]
        simp
      · dsimp only
        exact contentLoop_staging_bound .v11 b st hst

/-- A whole 1.1 message written through `nc_write_clb` (the per-type calls
followed by the final flush-and-endtag call) is a sequence of non-empty
chunks whose bodies concatenate to the message payload, followed by the
end-of-chunks terminator. -/
theorem runCalls_v11_chunked (calls : List ClbCall) : ∀ st : List Char,
    ClbCall.close ∉ calls →
    st.length ≤ WRITE_BUFSIZE →
    (∀ b : List Char, ClbCall.raw b ∈ calls → b.length < 2 ^ 64) →
    ∃ parts : List (List Char),
      (∀ p ∈ parts, p ≠ [] ∧ p.length < 2 ^ 64) ∧
      parts.flatten = st ++ payloadConcat calls ∧
      (runCalls .v11 (calls ++ [ClbCall.close]) st).2 = chunkedWire parts := by
  induction calls with
  | nil =>
    intro st _ hst _
    have hW : WRITE_BUFSIZE = 1024 := rfl
    have hWlt : WRITE_BUFSIZE < 2 ^ 64 := by norm_num [WRITE_BUFSIZE, BUFFERSIZE]
    rw [List.nil_append]
    have hrw : (runCalls .v11 [ClbCall.close] st).2 =
        (nc_write_clb_flush .v11 st).2 ++ nc_write_endtag .v11 ++ [] := rfl
    by_cases hz : st.length = 0
    · have hstnil : st = [] := List.length_eq_zero.mp hz
      subst hstnil
      refine ⟨[], by simp, by simp [payloadConcat], ?_⟩
      rw [hrw]
      rfl
    · refine ⟨[st], ?_, by simp [payloadConcat], ?_⟩
      · intro q hq
        have hqs : q = st := by simpa using hq
        subst hqs
        exact ⟨fun hcon => hz (by simp [hcon]), by omega⟩
      · rw [hrw]
        unfold nc_write_clb_flush
        rw [if_pos hz]
        simp [nc_write_endtag, nc_write_starttag_and_msg, chunkedWire, frameChunk]
  | cons c cs ih =>
    intro st hmem hst hraw
    have hc : c ≠ .close := fun hcon => hmem (hcon ▸ List.mem_cons_self c cs)
    have hcs : ClbCall.close ∉ cs := fun hx => hmem (List.mem_cons_of_mem c hx)
    obtain ⟨ps1, h11, h12, h13, h14⟩ := applyCall_v11_chunks c st hc hst
      (fun b hbeq => hraw b (by rw [← hbeq]; exact List.mem_cons_self c cs))
    obtain ⟨ps2, h21, h22, h23⟩ := ih (applyCall .v11 c st).1 hcs h14
      (fun b hbmem => hraw b (List.mem_cons_of_mem c hbmem))
    refine ⟨ps1 ++ ps2, ?_, ?_, ?_⟩
    · intro q hq
      rcases List.mem_append.mp hq with h | h
      exacts [h11 q h, h21 q h]
    · rw [List.flatten_append, h22, ← List.append_assoc, h12]
      simp [payloadConcat, List.append_assoc]
    · have hrw : (runCalls .v11 ((c :: cs) ++ [ClbCall.close]) st).2 =
          (applyCall .v11 c st).2 ++
            (runCalls .v11 (cs ++ [ClbCall.close]) (applyCall .v11 c st).1).2 := rfl
      rw [hrw, h13, h23]
      simp [chunkedWire, List.append_assoc]

/-- 1.1 transparency: the framed reader applied to the bytes a 1.1 session
puts on the wire for one message recovers exactly the message payload. -/
theorem runCalls_v11_readback (calls : List ClbCall)
    (hnc : ClbCall.close ∉ calls)
    (hraw : ∀ b : List Char, ClbCall.raw b ∈ calls → b.length < 2 ^ 64)
    (hne : payloadConcat calls ≠ []) :
    readPhase .v11 (runCalls .v11 (calls ++ [ClbCall.close]) []).2 =
      .ok (payloadConcat calls) [] := by
  obtain ⟨parts, hp, hflat, hwire⟩ := runCalls_v11_chunked calls [] hnc (by simp) hraw
  rw [List.nil_append] at hflat
  rw [hwire]
  show readChunks ((chunkedWire parts).length + 1) [] (chunkedWire parts) = _
  rw [readChunks_chunkedWire parts ((chunkedWire parts).length + 1) []
    (by have := chunkedWire_length_ge parts; omega) hp
    (by simpa [hflat] using hne)]
  rw [List.nil_append, hflat]

theorem rpcCalls_no_close (msgid : Nat) (content : List Char) (attrs : Option (List Char)) :
    ClbCall.close ∉ rpcCalls msgid content attrs := by
  simp [rpcCalls]

/-- Claim C8 (corrected): on every session - either NETCONF version - a
successful outbound `<rpc>` increments the 64-bit msgid counter by exactly
one modulo `2 ^ 64` (io.c:994-1007, version-independent), and the rpc body
carries a `message-id` attribute equal to the incremented counter: on a
1.0 session that body goes on the wire verbatim before the sentinel, and
on a 1.1 session it is chunk-framed so that de-framing the wire yields
exactly that body.  Below the wrap the new id is literally the old plus
one; at the wrap it is 0, not the predecessor plus one - see
`c8_msgid_wrap_counterexample`. -/
theorem c8_msgid_increment (sess : Session) (content : List Char)
    (attrs : Option (List Char))
    (hok : sess.status = .running ∨ sess.status = .starting)
    (hc : content.length < 2 ^ 64)
    (ha : (attrs.getD []).length + 256 < 2 ^ 64) :
    ∃ wire : List Char,
      nc_write_msg sess (.rpc content attrs) =
        some ({ sess with msgid := (sess.msgid + 1) % 2 ^ 64 }, wire) ∧
      (sess.version = .v10 → wire =
        ("<rpc xmlns=\"".data ++ NC_NS_BASE ++ "\" message-id=\"".data ++
          toDecimal ((sess.msgid + 1) % 2 ^ 64) ++ "\"".data ++
          attrs.getD [] ++ ">".data) ++
        (content ++ ("</rpc>".data ++ NC_VERSION_10_ENDTAG))) ∧
      (sess.version = .v11 → readPhase .v11 wire =
        .ok (("<rpc xmlns=\"".data ++ NC_NS_BASE ++ "\" message-id=\"".data ++
          toDecimal ((sess.msgid + 1) % 2 ^ 64) ++ "\"".data ++
          attrs.getD [] ++ ">".data) ++
          (content ++ "</rpc>".data)) []) ∧
      (sess.msgid + 1 < 2 ^ 64 → (sess.msgid + 1) % 2 ^ 64 = sess.msgid + 1) := by
  have hA : rpcCalls sess.msgid content attrs =
      [ClbCall.raw ("<rpc xmlns=\"".data ++ NC_NS_BASE ++ "\" message-id=\"".data ++
          toDecimal ((sess.msgid + 1) % 2 ^ 64) ++ "\"".data ++ attrs.getD [] ++ ">".data),
       ClbCall.raw content, ClbCall.raw "</rpc>".data] := by
    cases attrs <;> rfl
  refine ⟨(runCalls sess.version (rpcCalls sess.msgid content attrs ++ [ClbCall.close]) []).2,
    ?_, ?_, ?_, fun h => Nat.mod_eq_of_lt h⟩
  · unfold nc_write_msg
    rw [if_pos hok]
    simp only [msgCalls]
  · intro hv
    rw [hv, runCalls_v10_payload _ [] (rpcCalls_no_close sess.msgid content attrs), hA]
    simp only [payloadConcat, payloadOf, List.nil_append, List.append_nil,
      List.append_assoc]
  · intro hv
    have hb : ∀ b : List Char, ClbCall.raw b ∈ rpcCalls sess.msgid content attrs →
        b.length < 2 ^ 64 := by
      intro b hbmem
      rw [hA] at hbmem
      simp only [List.mem_cons, List.not_mem_nil, or_false, ClbCall.raw.injEq] at hbmem
      rcases hbmem with h | h | h
      · subst h
        have htd := toDecimal_length_le ((sess.msgid + 1) % 2 ^ 64)
          (Nat.mod_lt _ (by norm_num))
        have hns : NC_NS_BASE.length ≤ 64 := by decide
        have h1 : ("<rpc xmlns=\"".data).length ≤ 20 := by decide
        have h3 : ("\" message-id=\"".data).length ≤ 20 := by decide
        have h4 : ("\"".data).length ≤ 20 := by decide
        have h5 : ((">".data : List Char)).length ≤ 20 := by decide
        simp only [List.length_append, List.length_cons, List.length_nil]
        omega
      · subst h
        exact hc
      · subst h
        decide
    have hne : payloadConcat (rpcCalls sess.msgid content attrs) ≠ [] := by
      rw [hA]
      simp only [payloadConcat, payloadOf]
      intro hcon
      have hlen := congrArg List.length hcon
      simp only [List.length_append, List.length_cons, List.length_nil] at hlen
      have h1 : ("<rpc xmlns=\"".data).length = 12 := by decide
      omega
    rw [hv, runCalls_v11_readback (rpcCalls sess.msgid content attrs)
      (rpcCalls_no_close sess.msgid content attrs) hb hne, hA]
    simp only [payloadConcat, payloadOf, List.nil_append, List.append_nil,
      List.append_assoc]

/-- Claim C8, counterexample to the claim as stated: at the `uint64_t`
wrap-around the message-id of the next rpc is 0, which is not the
previous message-id plus one.  Starting from `msgid = 2^64 - 2`, the
first write emits id `2^64 - 1` and the second emits id `0`. -/
theorem c8_msgid_wrap_counterexample :
    Option.map (fun p => p.1.msgid)
      (nc_write_msg ⟨.running, .none, .client, .v10, 2 ^ 64 - 2⟩ (.rpc [] Option.none)) =
      some (2 ^ 64 - 1) ∧
    Option.map (fun p => decide ("message-id=\"18446744073709551615\"".data <:+: p.2))
      (nc_write_msg ⟨.running, .none, .client, .v10, 2 ^ 64 - 2⟩ (.rpc [] Option.none)) =
      some true ∧
    Option.map (fun p => p.1.msgid)
      (nc_write_msg ⟨.running, .none, .client, .v10, 2 ^ 64 - 1⟩ (.rpc [] Option.none)) =
      some 0 ∧
    Option.map (fun p => decide ("message-id=\"0\"".data <:+: p.2))
      (nc_write_msg ⟨.running, .none, .client, .v10, 2 ^ 64 - 1⟩ (.rpc [] Option.none)) =
      some true ∧
    (0 : Nat) ≠ (2 ^ 64 - 1) + 1 := by
  refine ⟨by decide, by decide, by decide, by decide, by decide⟩

/-- Claim C8, witness: the hypotheses and the full conclusion at the
concrete 1.1 session with `msgid = 7`, content `<get/>` and no extra
attributes. -/
theorem c8_msgid_increment_witness :
    ("<get/>".data.length < 2 ^ 64) ∧
    (((Option.none : Option (List Char)).getD []).length + 256 < 2 ^ 64) ∧
    (∃ wire : List Char,
      nc_write_msg ⟨.running, .none, .client, .v11, 7⟩ (.rpc "<get/>".data Option.none) =
        some (⟨.running, .none, .client, .v11, (7 + 1) % 2 ^ 64⟩, wire) ∧
      ((NC_VERSION.v11 : NC_VERSION) = .v10 → wire =
        ("<rpc xmlns=\"".data ++ NC_NS_BASE ++ "\" message-id=\"".data ++
          toDecimal ((7 + 1) % 2 ^ 64) ++ "\"".data ++
          (Option.none : Option (List Char)).getD [] ++ ">".data) ++
        ("<get/>".data ++ ("</rpc>".data ++ NC_VERSION_10_ENDTAG))) ∧
      ((NC_VERSION.v11 : NC_VERSION) = .v11 → readPhase .v11 wire =
        .ok (("<rpc xmlns=\"".data ++ NC_NS_BASE ++ "\" message-id=\"".data ++
          toDecimal ((7 + 1) % 2 ^ 64) ++ "\"".data ++
          (Option.none : Option (List Char)).getD [] ++ ">".data) ++
          ("<get/>".data ++ "</rpc>".data)) []) ∧
      (7 + 1 < 2 ^ 64 → (7 + 1) % 2 ^ 64 = 7 + 1)) :=
  ⟨by decide, by decide,
   c8_msgid_increment ⟨.running, .none, .client, .v11, 7⟩ "<get/>".data Option.none
     (Or.inl rfl) (by decide) (by decide)⟩

set_option maxRecDepth 10000 in
/-- Claim C9 (code bug): the notification body written by `nc_write_msg`
is the `<notification xmlns="...notification:1.0">` open tag, the
`<eventTime>` element, the payload tree - but NOT the complete 15-byte
closing tag: io.c:1085 passes a count of 12, so only `"</notificati"`
reaches the wire and the complete `</notification>` never occurs in the
output. -/
theorem c9_notification_truncated_endtag :
    nc_write_msg ⟨.running, .none, .server, .v10, 0⟩
        (.notif "2023-01-01T00:00:00Z".data "<x/>".data) =
      some (⟨.running, .none, .server, .v10, 0⟩,
        ("<notification xmlns=\"urn:ietf:params:xml:ns:netconf:notification:1.0\"><eventTime>2023-01-01T00:00:00Z</eventTime><x/></notificati]]>]]>").data) ∧
    ¬ "</notification>".data <:+:
      ("<notification xmlns=\"urn:ietf:params:xml:ns:netconf:notification:1.0\"><eventTime>2023-01-01T00:00:00Z</eventTime><x/></notificati]]>]]>").data ∧
    "</notification>".data.take 12 = "</notificati".data := by
  refine ⟨by decide, by decide, by decide⟩

/-- Claim C10 (confirmed): the 1.1 chunk-size token is parsed with
`strtoul(.., 10)`, so header tokens that are not pure decimal numerals -
with leading white space, a leading sign, or trailing junk such as
`"12abc"` - are accepted, the leading numeral serving as the chunk
length: a frame with header `"12abc"` followed by 12 payload bytes and
the terminator is read as that 12-byte body instead of being rejected. -/
theorem c10_strtoul_leniency :
    strtoul10 "12abc\n".data = 12 ∧
    strtoul10 " 12\n".data = 12 ∧
    strtoul10 "+12\n".data = 12 ∧
    (∀ (fuel : Nat) (body : List Char), body.length = 12 →
      readChunks (fuel + 1 + 1) []
        ('\n' :: '#' :: ("12abc".data ++ '\n' :: (body ++ "\n##\n".data))) = .ok body []) := by
  refine ⟨by decide, by decide, by decide, ?_⟩
  intro fuel body hlen
  rw [readChunks_step (fuel + 1) [] "12abc".data _ (by decide),
    if_neg (by decide), show strtoul10 ("12abc".data ++ ['\n']) = 12 from by decide,
    if_neg (by decide)]
  have hre : readExact 12 (body ++ "\n##\n".data) = some (body, "\n##\n".data) := by
    unfold readExact
    rw [if_pos (by simp [hlen])]
    rw [← hlen, List.take_left, List.drop_left]
  rw [hre]
  show readChunks (fuel + 1) ([] ++ body) ('\n' :: '#' :: '#' :: '\n' :: []) = _
  rw [readChunks_term fuel ([] ++ body) [],
    if_neg (by
      intro hcon
      rw [List.nil_append] at hcon
      rw [hcon] at hlen
      simp at hlen)]
  simp

/-- Claim C10, witness: the lenient header `"12abc"` at the concrete
12-byte body `xxxxxxxxxxxx`. -/
theorem c10_strtoul_leniency_witness :
    (List.replicate 12 'x').length = 12 ∧
    readChunks 2 []
      ('\n' :: '#' :: ("12abc".data ++ '\n' :: (List.replicate 12 'x' ++ "\n##\n".data))) =
      .ok (List.replicate 12 'x') [] :=
  ⟨by decide, c10_strtoul_leniency.2.2.2 0 (List.replicate 12 'x') (by decide)⟩
